/-
Verification of the Morphe → Pydantic compilation core
(kalo-build/plugin-morphe-pydantic-types).

Shallow embedding of `pkg/compile/compile_models.go`,
`pkg/compile/import_tracker.go` and the structure generator, together with
models of the small helper packages (`formatdef`, `typemap`, `yamlops`,
registry access) that the compile package uses.  Go maps are embedded as
association lists; Go's map iteration order corresponds to the order of the
association list, so order-independence properties become permutation
invariance.  Strings are Lean `String`s and all character-level operations
are defined on `String.data` so that proofs can proceed by list induction.
-/
import Mathlib

namespace PydanticPlugin

/-! ## Character-level string utilities -/

/-- Substring test on character lists (model of Go `strings.Contains`). -/
def containsSub (pat : List Char) : List Char → Bool
  | [] => pat.isPrefixOf []
  | c :: rest => pat.isPrefixOf (c :: rest) || containsSub pat (rest)

/-- Model of Go `strings.Contains s pat`. -/
def strHas (s pat : String) : Bool := containsSub pat.data s.data

/-- Model of Go `strings.HasPrefix s pat`. -/
def strStarts (s pat : String) : Bool := pat.data.isPrefixOf s.data

/-- Model of Go `strings.HasSuffix s pat`. -/
def strEnds (s pat : String) : Bool := pat.data.isSuffixOf s.data

/-- Model of Go `strings.TrimPrefix s pat`. -/
def trimPre (s pat : String) : String :=
  if strStarts s pat then String.mk (s.data.drop pat.data.length) else s

/-- Model of Go `strings.TrimSuffix s pat`. -/
def trimSuf (s pat : String) : String :=
  if strEnds s pat then String.mk (s.data.take (s.data.length - pat.data.length)) else s

/-- Is the character a single or double quote (the cutset `"'\""` used by
`strings.Trim` in `extractAllInnerTypes`)? -/
def isQuoteChar (c : Char) : Bool := c.toNat == 39 || c.toNat == 34

/-- Model of Go `strings.Trim s "'\""`. -/
def trimQuotes (l : List Char) : List Char :=
  ((l.dropWhile isQuoteChar).reverse.dropWhile isQuoteChar).reverse

/-- Split a character list on a separator character (every occurrence
separates; empty pieces are kept, as in Go `strings.Split`). -/
def splitChar (sep : Char) : List Char → List (List Char)
  | [] => [[]]
  | c :: cs =>
    if c == sep then [] :: splitChar sep cs
    else
      match splitChar sep cs with
      | [] => [[c]]
      | g :: gs => (c :: g) :: gs

/-- Split on a separator substring, with fuel (model of Go `strings.Split`
with a multi-character separator, used to take `Union[...]` members apart). -/
def splitSepAux (sep : List Char) : Nat → List Char → List (List Char)
  | 0, l => [l]
  | _ + 1, [] => [[]]
  | fuel + 1, c :: cs =>
    if sep.isPrefixOf (c :: cs) then
      [] :: splitSepAux sep fuel ((c :: cs).drop sep.length)
    else
      match splitSepAux sep fuel cs with
      | [] => [[c]]
      | g :: gs => (c :: g) :: gs

/-- Model of Go `strings.Split s sep` for nonempty `sep`. -/
def splitSep (s sep : String) : List String :=
  (splitSepAux sep.data (s.data.length + 1) s.data).map String.mk

/-! ## Case conversion (Modelled from the spec)

`formatdef.ToCamelCase` and `formatdef.ToSnakeCase` are part of this
repository but their source is not available here.  Modelled from the spec:
identifiers are sanitized into the target language's identifier case
convention (snake_case for Python); camel case joins underscore-separated
parts with each part capitalized, which is consistent with the documented
output examples (`TaxID` ↦ `tax_id`, relation `Person` ↦ field
`person_id`, polymorphic `Commentable` ↦ `commentable_type`). -/

/-- Capitalize the first character of a part. -/
def capitalizeData : List Char → List Char
  | [] => []
  | c :: cs => c.toUpper :: cs

/-- Modelled from the spec: `formatdef.ToCamelCase` on character lists —
split on underscores, capitalize every part, concatenate. -/
def camelData (l : List Char) : List Char :=
  ((splitChar '_' l).map capitalizeData).flatten

/-- Modelled from the spec: `formatdef.ToCamelCase`. -/
def toCamelCase (s : String) : String := String.mk (camelData s.data)

/-- Should an underscore be inserted before this (uppercase) character?
`prev` is the previous character (if any), `rest` the following characters. -/
def snakeBreak (prev : Option Char) (c : Char) (rest : List Char) : Bool :=
  c.isUpper &&
    (match prev with
     | none => false
     | some p =>
       p.isLower ||
         (p.isUpper &&
           (match rest with
            | n :: _ => n.isLower
            | [] => false)))

/-- Modelled from the spec: `formatdef.ToSnakeCase` on character lists, with
acronym handling (`TaxID` ↦ `tax_id`, `PersonId` ↦ `person_id`). -/
def snakeAux : Option Char → List Char → List Char
  | _, [] => []
  | prev, c :: rest =>
    if snakeBreak prev c rest then
      '_' :: c.toLower :: snakeAux (some c) rest
    else
      c.toLower :: snakeAux (some c) rest

/-- Modelled from the spec: `formatdef.ToSnakeCase`. -/
def toSnakeCase (s : String) : String := String.mk (snakeAux none s.data)

/-- Lexicographic comparison of character lists by code point (the order Go
`sort.Strings` sorts by; UTF-8 byte order and code-point order agree). -/
def listLeChars : List Char → List Char → Bool
  | [], _ => true
  | _ :: _, [] => false
  | a :: as, b :: bs =>
    if a.toNat < b.toNat then true
    else if b.toNat < a.toNat then false
    else listLeChars as bs

/-- Lexicographic string order (kernel-computable model of Go's `<=` on
strings). -/
def strLe (a b : String) : Bool := listLeChars a.data b.data

/-- Python reserved words (the fixed reserved-word list of the spec §4.4). -/
def pythonReserved : List String :=
  ["False", "None", "True", "and", "as", "assert", "async", "await",
   "break", "class", "continue", "def", "del", "elif", "else", "except",
   "finally", "for", "from", "global", "if", "import", "in", "is",
   "lambda", "nonlocal", "not", "or", "pass", "raise", "return", "try",
   "while", "with", "yield"]

/-- Modelled from the spec: `SanitizePythonIdentifier` — identifiers
colliding with a reserved word are suffixed with `_` rather than erroring. -/
def sanitizePythonIdentifier (s : String) : String :=
  if pythonReserved.contains s then s ++ "_" else s

/-! ## Schema data model (morphe-go `yaml` / `registry` packages) -/

/-- The eight-way relation-kind taxonomy ({For,Has} × {One,Many} ×
{plain,polymorphic}), spec §3. -/
inductive RelationType where
  | forOne | forMany | hasOne | hasMany
  | forOnePoly | forManyPoly | hasOnePoly | hasManyPoly
deriving DecidableEq

/-- `yamlops.IsRelationPoly`: the kind is polymorphic. -/
def isRelationPoly : RelationType → Bool
  | .forOnePoly | .forManyPoly | .hasOnePoly | .hasManyPoly => true
  | _ => false

/-- `yamlops.IsRelationFor`: the kind is a "For" relation. -/
def isRelationFor : RelationType → Bool
  | .forOne | .forMany | .forOnePoly | .forManyPoly => true
  | _ => false

/-- `yamlops.IsRelationOne`: the kind has cardinality one. -/
def isRelationOne : RelationType → Bool
  | .forOne | .hasOne | .forOnePoly | .hasOnePoly => true
  | _ => false

/-- `yamlops.IsRelationMany`: the kind has cardinality many. -/
def isRelationMany : RelationType → Bool
  | .forMany | .hasMany | .forManyPoly | .hasManyPoly => true
  | _ => false

/-- A relation declaration (`yaml.ModelRelation`): kind, optional alias,
optional explicit "for" list, optional "through" reference. -/
structure Relation where
  relType : RelationType
  aliased : String := ""
  forList : List String := []
  through : String := ""
deriving DecidableEq

/-- A schema model (`yaml.Model`): name, field name ↦ morphe type, relation
name ↦ relation declaration.  Go maps are embedded as association lists. -/
structure Model where
  name : String
  fields : List (String × String) := []
  related : List (String × Relation) := []
deriving DecidableEq

/-- The schema registry (`registry.Registry`): models by name, plus the
names of the registered enums and structures (used for reference
classification). -/
structure Registry where
  models : List (String × Model) := []
  enums : List String := []
  structures : List String := []

/-- `registry.Registry.GetAllModels`. -/
def Registry.getAllModels (r : Registry) : List (String × Model) := r.models

/-- Association-list lookup (model of Go map indexing). -/
def lookupA {α : Type} (l : List (String × α)) (k : String) : Option α :=
  (l.find? (fun p => p.1 == k)).map (fun p => p.2)

/-! ## Target-format definitions (`formatdef` package) -/

/-- `formatdef.Type`: either a basic/named type or an array type. -/
inductive FormatType where
  | basic (name : String)
  | array (elem : FormatType)
deriving DecidableEq

/-- `Type.GetName()`: the rendered Python type expression. -/
def FormatType.getName : FormatType → String
  | .basic n => n
  | .array e => "List[" ++ e.getName ++ "]"

/-- `formatdef.TypeString`. -/
def typeString : FormatType := .basic "str"

/-- `formatdef.TypeAny`. -/
def typeAny : FormatType := .basic "Any"

/-- `formatdef.Field`. -/
structure FormatField where
  name : String
  type : FormatType
deriving DecidableEq

/-- `formatdef.Struct`. -/
structure FormatStruct where
  name : String
  fields : List FormatField
deriving DecidableEq

/-! ## Type mapping (`typemap` package) -/

/-- Modelled from the spec (§4.1): `typemap.GetFieldType` — total mapping
from morphe scalar types to Python types; names that are not recognized
scalars resolve to themselves (references to enums/models/structures,
which is also the documented non-failing default). -/
def getFieldType (t : String) : FormatType :=
  match t with
  | "UUID" => .basic "str"
  | "AutoIncrement" => .basic "int"
  | "String" => .basic "str"
  | "Integer" => .basic "int"
  | "Float" => .basic "float"
  | "Boolean" => .basic "bool"
  | "Time" => .basic "datetime"
  | "Date" => .basic "datetime"
  | "Protected" => .basic "str"
  | "Sealed" => .basic "str"
  | other => .basic other

/-- `yamlops.GetRelationTargetName`: the alias when present, else the
relation name itself. -/
def getRelationTargetName (name aliased : String) : String :=
  if aliased ≠ "" then aliased else name

/-! ## CompileModel (`compile_models.go`) -/

/-- `resolvePolymorphicThrough` (compile_models.go:17): find the first
model in the registry (in iteration order) that has a polymorphic relation
named like the `through` value.  Returns `none` where the Go code returns
an error. -/
def resolvePolymorphicThrough (through : String) (r : Registry) : Option String :=
  r.getAllModels.findSome? (fun p =>
    if p.2.related.any (fun q => q.1 == through && isRelationPoly q.2.relType) then
      some p.1
    else none)

/-- The foreign-key fields contributed by one relation
(compile_models.go:65-96): ForOnePoly contributes a `_type`/`_id` pair,
plain ForOne contributes an `_id` field, every other kind contributes
nothing. -/
def fkFieldsOfRelation (relatedName : String) (rel : Relation) : List FormatField :=
  let t := rel.relType
  if isRelationPoly t && isRelationFor t && isRelationOne t then
    [⟨toCamelCase (relatedName ++ "_type"), .basic "str"⟩,
     ⟨toCamelCase (relatedName ++ "_id"), .basic "str"⟩]
  else if isRelationPoly t then
    []
  else if isRelationFor t && isRelationOne t then
    [⟨toCamelCase (relatedName ++ "_id"), .basic "str"⟩]
  else
    []

/-- `Union['A', 'B']` rendering for a polymorphic "for" list
(compile_models.go:112-119). -/
def unionTypeName (forList : List String) : String :=
  "Union[" ++ String.intercalate ", " (forList.map (fun m => "'" ++ m ++ "'")) ++ "]"

/-- The navigation field contributed by one relation
(compile_models.go:99-149). -/
def navFieldOfRelation (relatedName : String) (rel : Relation) (r : Registry) :
    FormatField :=
  let targetModelName := getRelationTargetName relatedName rel.aliased
  let navType : FormatType :=
    if isRelationPoly rel.relType then
      if rel.forList ≠ [] then
        .basic (unionTypeName rel.forList)
      else if rel.through ≠ "" then
        match resolvePolymorphicThrough rel.through r with
        | some throughModel => .basic throughModel
        | none => typeAny
      else
        typeAny
    else
      .basic targetModelName
  let navType := if isRelationMany rel.relType then .array navType else navType
  ⟨"_nav_" ++ relatedName, navType⟩

/-- `CompileModel` (compile_models.go:30): data fields in name-sorted order,
then foreign-key fields in relation-name-sorted order, then navigation
fields in relation-name-sorted order.  The Go function always returns a nil
error, so the embedding is total. -/
def compileModel (model : Model) (r : Registry) : FormatStruct :=
  let fieldNames := List.insertionSort (fun a b => strLe a b = true) (model.fields.map (fun p => p.1))
  let dataFields := fieldNames.filterMap (fun n =>
    (lookupA model.fields n).map (fun t => (⟨n, getFieldType t⟩ : FormatField)))
  if model.related.isEmpty then
    ⟨model.name, dataFields⟩
  else
    let relatedNames := List.insertionSort (fun a b => strLe a b = true) (model.related.map (fun p => p.1))
    let fkFields := relatedNames.flatMap (fun n =>
      match lookupA model.related n with
      | some rel => fkFieldsOfRelation n rel
      | none => [])
    let navFields := relatedNames.filterMap (fun n =>
      (lookupA model.related n).map (fun rel => navFieldOfRelation n rel r))
    ⟨model.name, dataFields ++ fkFields ++ navFields⟩

/-! ## Configuration (`morphe_compile_config.go`, `pkg/compile/cfg`) -/

/-- `PydanticConfig` (morphe_compile_config.go:26). -/
structure PydanticConfig where
  pydanticV2 : Bool := true
  addTypeHints : Bool := true
  generateInit : Bool := true
  indentSize : Nat := 4
  pythonVersion : String := "3.8"

/-- `cfg.ModelConfig` (only `UseField` is consulted by the model
generator). -/
structure ModelConfig where
  useField : Bool := false

/-- `cfg.MorpheConfig` (the enum/structure/entity sub-configurations are
not consulted by the functions embedded here). -/
structure MorpheConfig where
  models : ModelConfig := {}

/-! ## Import tracker (`import_tracker.go`) -/

/-- `ImportTracker` (import_tracker.go:12).  The Go `enums`/`models` sets
are `map[string]bool`; they are embedded as duplicate-free lists in
insertion order (`Generate` sorts them before rendering, so only the set
of entries matters). -/
structure ImportTracker where
  pydantic : List String := []
  typing : List String := []
  datetime : Bool := false
  enums : List String := []
  models : List String := []
  registry : Registry

/-- `NewImportTracker` (import_tracker.go:22). -/
def newImportTracker (r : Registry) : ImportTracker :=
  { registry := r }

/-- `containsString` (import_tracker.go:140). -/
def containsString (slice : List String) (item : String) : Bool :=
  slice.any (fun s => s == item)

/-- `AddPydantic` (import_tracker.go:31). -/
def addPydantic (it : ImportTracker) (imports : List String) : ImportTracker :=
  imports.foldl
    (fun st imp =>
      if containsString st.pydantic imp then st
      else { st with pydantic := st.pydantic ++ [imp] })
    it

/-- `AddTyping` (import_tracker.go:82). -/
def addTyping (it : ImportTracker) (imports : List String) : ImportTracker :=
  imports.foldl
    (fun st imp =>
      if containsString st.typing imp then st
      else { st with typing := st.typing ++ [imp] })
    it

/-- Insertion into a Go `map[string]bool` used as a set. -/
def insertSet (l : List String) (x : String) : List String :=
  if l.contains x then l else l ++ [x]

/-- `isBasicType` (import_tracker.go:149). -/
def isBasicType (typeName : String) : Bool :=
  ["str", "int", "float", "bool", "datetime", "Any", "None"].contains typeName

/-- Modelled from the spec (§4.1): `resolveFieldType` — classify a name by
where it exists in the registry: enum, model or structure. -/
def resolveFieldType (typeName : String) (r : Registry) : String :=
  if r.enums.contains typeName then "enum"
  else if r.models.any (fun p => p.1 == typeName) then "model"
  else if r.structures.contains typeName then "structure"
  else ""

/-- Modelled from the spec: `extractInnerType` — the text between the first
`[` and the last `]` of a rendered type expression, or the expression
itself when it has no brackets (so a plain enum reference is returned
unchanged). -/
def extractInnerType (t : String) : String :=
  if strHas t "[" then
    String.mk ((((t.data.dropWhile (fun c => c != '[')).drop 1).reverse.dropWhile
        (fun c => c != ']')).drop 1 |>.reverse)
  else t

/-- `extractAllInnerTypes` (import_tracker.go:160): replace brackets and
commas by spaces, split into fields, trim quotes, drop empty parts and
parts containing `|`. -/
def extractAllInnerTypes (typeName : String) : List String :=
  let cleaned := typeName.data.map (fun c =>
    if c == '[' || c == ']' || c == ',' then ' ' else c)
  ((splitChar ' ' cleaned).filter (fun p => !p.isEmpty)).filterMap (fun p =>
    let q := trimQuotes p
    if !q.isEmpty && !q.contains '|' then some (String.mk q) else none)

/-- One step of the inner-type loop of `TrackFieldType`
(import_tracker.go:67-78). -/
def trackInnerType (st : ImportTracker) (innerType : String) : ImportTracker :=
  if innerType != "" && !isBasicType innerType then
    match resolveFieldType innerType st.registry with
    | "enum" => { st with enums := insertSet st.enums innerType }
    | "model" =>
      addTyping { st with models := insertSet st.models innerType } ["TYPE_CHECKING"]
    | _ => st
  else st

/-- One conditional typing-import addition of `TrackFieldType`
(`if strings.Contains(...) { it.AddTyping(...) }`). -/
def addTypingIf (c : Bool) (x : String) (st : ImportTracker) : ImportTracker :=
  if c then addTyping st [x] else st

/-- The datetime check of `TrackFieldType` (import_tracker.go:62-64). -/
def dtIf (typeName : String) (st : ImportTracker) : ImportTracker :=
  if typeName == "datetime" || strHas typeName "datetime" then
    { st with datetime := true }
  else st

/-- `TrackFieldType` (import_tracker.go:40). -/
def trackFieldType (it : ImportTracker) (typeName : String) : ImportTracker :=
  let st := addTypingIf (strHas typeName "Optional[") "Optional" it
  let st := addTypingIf (strHas typeName "List[") "List" st
  let st := addTypingIf (strHas typeName "Union[") "Union" st
  let st := addTypingIf (strHas typeName "Dict[") "Dict" st
  let st := addTypingIf (strHas typeName "Any") "Any" st
  let st := addTypingIf (strHas typeName "Literal[") "Literal" st
  let st := dtIf typeName st
  (extractAllInnerTypes typeName).foldl trackInnerType st

/-- Ascending sort on strings (model of Go `sort.Strings`; any correct sort
of strings produces this list). -/
def sortStrings (l : List String) : List String :=
  List.insertionSort (fun a b => strLe a b = true) l

/-- `Generate` (import_tracker.go:91), as the list of emitted lines:
pydantic import line, typing imports (sorted, one line), datetime import,
enum imports (sorted, one per line), a blank line, then the
`TYPE_CHECKING`-guarded model imports (sorted). -/
def generate (it : ImportTracker) : List String :=
  (if it.pydantic.isEmpty then []
   else ["from pydantic import " ++ String.intercalate ", " it.pydantic]) ++
  (if it.typing.isEmpty then []
   else ["from typing import " ++ String.intercalate ", " (sortStrings it.typing)]) ++
  (if it.datetime then ["from datetime import datetime"] else []) ++
  (if it.enums.isEmpty then []
   else (sortStrings it.enums).map (fun n =>
     "from ..enums." ++ toSnakeCase n ++ " import " ++ n)) ++
  [""] ++
  (if it.models.isEmpty then []
   else "if TYPE_CHECKING:" ::
     (sortStrings it.models).map (fun n =>
       "    from ." ++ toSnakeCase n ++ " import " ++ n))

/-! ## Model content generation (`generateModelContent`,
compile_models.go:178) -/

/-- Is this a synthesized navigation field (prefixed with `_nav_`)? -/
def isNavField (f : FormatField) : Bool := strStarts f.name "_nav_"

/-- Insert into the `polymorphicTypeToNavMap` Go map.  The stored value is
a function of the key, so overwrite and keep-first agree; keep-first
preserves the embedding's association-list discipline. -/
def insertPolyMap (m : List (String × String)) (k v : String) : List (String × String) :=
  if m.any (fun p => p.1 == k) then m else m ++ [(k, v)]

/-- The `polymorphicTypeToNavMap` built by the first field scan
(compile_models.go:196-220): every non-navigation field whose name ends in
`_type` and whose rendered type is `str` maps to its expected navigation
field name. -/
def polyMapOf (model : FormatStruct) : List (String × String) :=
  (model.fields.filter (fun f => !isNavField f)).foldl
    (fun m f =>
      if strEnds f.name "_type" && f.type.getName == "str" then
        insertPolyMap m f.name ("_nav_" ++ trimSuf f.name "_type")
      else m)
    []

/-- `hasPolymorphicTypeField` of the first field scan. -/
def hasPolyTypeField (model : FormatStruct) : Bool :=
  (model.fields.filter (fun f => !isNavField f)).any (fun f =>
    strEnds f.name "_type" && f.type.getName == "str")

/-- The per-field enum check of the first field scan
(compile_models.go:206-210): the field has a basic type whose inner type
resolves to an enum. -/
def isEnumField (f : FormatField) (r : Registry) : Bool :=
  match f.type with
  | .basic n =>
    let innerType := extractInnerType n
    innerType != "" && resolveFieldType innerType r == "enum"
  | .array _ => false

/-- `needsModelConfig` of the first field scan (compile_models.go:205-211):
some non-navigation field has a basic type whose inner type resolves to an
enum. -/
def needsModelConfigOf (model : FormatStruct) (r : Registry) : Bool :=
  (model.fields.filter (fun f => !isNavField f)).any (fun f => isEnumField f r)

/-- The allowed `Literal` members for a polymorphic type field: the union
members of the first field named like the expected navigation field
(compile_models.go:270-287). -/
def allowedTypesFor (model : FormatStruct) (navFieldName : String) : List String :=
  match model.fields.find? (fun nf => nf.name == navFieldName) with
  | some navField =>
    let unionType := navField.type.getName
    if strStarts unionType "Union[" && strEnds unionType "]" then
      let unionContent := String.mk ((unionType.data.drop 6).take (unionType.data.length - 7))
      (splitSep unionContent ", ").map (fun t =>
        "\"" ++ String.mk (trimQuotes t.data) ++ "\"")
    else []
  | none => []

/-- Render one data field line (compile_models.go:257-301), including the
4-space class-body indentation. -/
def renderDataField (polyMap : List (String × String)) (model : FormatStruct)
    (config : PydanticConfig) (f : FormatField) : String :=
  let fieldName := sanitizePythonIdentifier (toSnakeCase f.name)
  let fieldType := f.type.getName
  if config.addTypeHints then
    match lookupA polyMap f.name with
    | some navFieldName =>
      let allowedTypes := allowedTypesFor model navFieldName
      if !allowedTypes.isEmpty then
        "    " ++ fieldName ++ ": Literal[" ++ String.intercalate ", " allowedTypes ++ "]"
      else
        "    " ++ fieldName ++ ": str"
    | none =>
      if 3 < fieldName.data.length &&
          (strEnds fieldName "_id" || strEnds fieldName "_type") then
        "    " ++ fieldName ++ ": Optional[" ++ fieldType ++ "] = None"
      else
        "    " ++ fieldName ++ ": " ++ fieldType
  else
    "    " ++ fieldName ++ " = None"

/-- Render one navigation field line (compile_models.go:305-341); `none`
when the relation also produced `_type`/`_id` fields (suppressed). -/
def renderNavField (model : FormatStruct) (f : FormatField) : Option String :=
  let relName := trimPre f.name "_nav_"
  let fieldName := sanitizePythonIdentifier (toSnakeCase relName)
  let fieldType := f.type.getName
  let hasPolyFields := model.fields.any (fun g =>
    g.name == relName ++ "_type" || g.name == relName ++ "_id")
  if hasPolyFields then none
  else if strStarts fieldType "List[" then
    some ("    " ++ fieldName ++ ": Optional[" ++ fieldType ++ "] = None")
  else if strHas fieldType "Union[" then
    some ("    " ++ fieldName ++ ": Optional[" ++ fieldType ++ "] = None")
  else
    some ("    " ++ fieldName ++ ": Optional['" ++ fieldType ++ "'] = None")

/-- The Pydantic configuration block lines (compile_models.go:343-360):
the v2 `model_config` dict or the v1 `class Config`, emitted only when an
enum-valued field was found.  The braces of the generated Python dict are
escaped as `\x7b`/`\x7d` in this source. -/
def configBlockLines (config : PydanticConfig) (needsModelConfig : Bool) : List String :=
  if config.pydanticV2 && needsModelConfig then
    ["    ",
     "    model_config = \x7b",
     "        \"validate_assignment\": True,",
     "        \"use_enum_values\": True,",
     "    \x7d"]
  else if !config.pydanticV2 && needsModelConfig then
    ["    ",
     "    class Config:",
     "        validate_assignment = True",
     "        use_enum_values = True"]
  else []

/-- The import tracker after both field scans and the unconditional
additions (compile_models.go:182-240). -/
def importsOf (model : FormatStruct) (config : PydanticConfig)
    (morpheConfig : MorpheConfig) (r : Registry) : ImportTracker :=
  let it := addPydantic (newImportTracker r) ["BaseModel"]
  let it := if morpheConfig.models.useField then addPydantic it ["Field"] else it
  let it := (model.fields.filter (fun f => !isNavField f)).foldl
    (fun st f => trackFieldType st f.type.getName) it
  let it := (model.fields.filter (fun f => isNavField f)).foldl
    (fun st f => trackFieldType st f.type.getName) it
  let it := if config.addTypeHints then addTyping it ["Optional"] else it
  if hasPolyTypeField model then addTyping it ["Literal"] else it

/-- `generateModelContent` (compile_models.go:178) as the list of emitted
lines. -/
def generateModelContentLines (model : FormatStruct) (config : PydanticConfig)
    (morpheConfig : MorpheConfig) (r : Registry) : List String :=
  let polyMap := polyMapOf model
  let needsModelConfig := needsModelConfigOf model r
  generate (importsOf model config morpheConfig r) ++
  [""] ++
  ["class " ++ model.name ++ "(BaseModel):"] ++
  ["    \"\"\"" ++ model.name ++ " model.\"\"\""] ++
  (if model.fields.isEmpty then
    ["    pass"]
  else
    (model.fields.filter (fun f => !isNavField f)).map
      (renderDataField polyMap model config) ++
    (model.fields.filter (fun f => isNavField f)).filterMap
      (renderNavField model) ++
    configBlockLines config needsModelConfig)

/-- `ContentBuilder.Build`: every emitted line is terminated by a
newline. -/
def buildContent (lines : List String) : String :=
  String.join (lines.map (fun l => l ++ "\n"))

/-- `generateModelContent` as the final byte content. -/
def generateModelContent (model : FormatStruct) (config : PydanticConfig)
    (morpheConfig : MorpheConfig) (r : Registry) : String :=
  buildContent (generateModelContentLines model config morpheConfig r)

/-! ## Structure content generation (`generateStructureContent`) -/

/-- `needsConfig` of the structure generator: some field has a basic type
that is none of the built-in scalars and contains no bracket. -/
def structureNeedsConfig (s : FormatStruct) : Bool :=
  s.fields.any (fun f =>
    match f.type with
    | .basic n =>
      n != "str" && n != "int" && n != "float" && n != "bool" &&
      n != "datetime" && n != "Dict[str, Any]" && !strHas n "["
    | .array _ => false)

/-- `generateStructureContent` as the list of emitted lines. -/
def generateStructureContentLines (s : FormatStruct) (config : PydanticConfig) :
    List String :=
  let importLine :=
    if config.pydanticV2 then "from pydantic import BaseModel, Field"
    else "from pydantic import BaseModel"
  let hasDate := s.fields.any (fun f => f.type.getName == "datetime")
  let hasDict := s.fields.any (fun f => f.type.getName == "Dict[str, Any]")
  let hasList := s.fields.any (fun f =>
    5 < f.type.getName.data.length && strStarts f.type.getName "List[")
  let imports :=
    ["Optional"] ++ (if hasDict then ["Dict", "Any"] else []) ++
    (if hasList then ["List"] else [])
  [importLine] ++
  (if config.addTypeHints then
    ["from typing import " ++ String.intercalate ", " imports] ++
    (if hasDate then ["from datetime import datetime"] else [])
  else []) ++
  ["", ""] ++
  ["class " ++ s.name ++ "(BaseModel):"] ++
  ["    \"\"\"" ++ s.name ++ " data transfer object.\"\"\""] ++
  (s.fields.map (fun f =>
    "    " ++ sanitizePythonIdentifier (toSnakeCase f.name) ++ ": " ++ f.type.getName)) ++
  (if config.pydanticV2 && structureNeedsConfig s then
    ["    ",
     "    model_config = \x7b",
     "        \"validate_assignment\": True,",
     "        \"use_enum_values\": True,",
     "    \x7d"]
  else [])

/-- `generateStructureContent` as the final byte content. -/
def generateStructureContent (s : FormatStruct) (config : PydanticConfig) : String :=
  buildContent (generateStructureContentLines s config)

/-! ## General helper lemmas -/

/-- Association-list lookup finds the stored value when keys are
duplicate-free. -/
theorem lookupA_eq_some_of_nodup {α : Type} {l : List (String × α)} {k : String}
    {v : α} (hnd : (l.map Prod.fst).Nodup) (hmem : (k, v) ∈ l) :
    lookupA l k = some v := by
  induction l with
  | nil => cases hmem
  | cons p rest ih =>
    simp only [List.map_cons, List.nodup_cons] at hnd
    rcases List.mem_cons.mp hmem with h | h
    · subst h
      simp [lookupA, List.find?]
    · have hne : p.1 ≠ k := by
        intro hk
        exact hnd.1 (hk ▸ List.mem_map_of_mem Prod.fst h)
      have : (p.1 == k) = false := by
        simpa [beq_iff_eq] using hne
      simpa [lookupA, List.find?, this] using ih hnd.2 h

/-- Every key of an association list has a successful lookup. -/
theorem lookupA_isSome_of_mem_keys {α : Type} {l : List (String × α)} {k : String}
    (hmem : k ∈ l.map Prod.fst) : ∃ v, lookupA l k = some v := by
  induction l with
  | nil => simp at hmem
  | cons p rest ih =>
    by_cases hk : p.1 = k
    · exact ⟨p.2, by simp [lookupA, List.find?, hk]⟩
    · have : (p.1 == k) = false := by simpa [beq_iff_eq] using hk
      have hmem' : k ∈ rest.map Prod.fst := by
        rcases List.mem_map.mp hmem with ⟨q, hq, hq1⟩
        rcases List.mem_cons.mp hq with h | h
        · exact absurd (h ▸ hq1) hk
        · exact hq1 ▸ List.mem_map_of_mem Prod.fst h
      rcases ih hmem' with ⟨v, hv⟩
      exact ⟨v, by simpa [lookupA, List.find?, this] using hv⟩

/-- `filterMap` over a list where the function always succeeds is a
`map`. -/
theorem filterMap_eq_map_of_some {α β : Type} {g : α → Option β} {h : α → β}
    {ns : List α} (hg : ∀ n ∈ ns, g n = some (h n)) :
    ns.filterMap g = ns.map h := by
  induction ns with
  | nil => rfl
  | cons a rest ih =>
    have ha := hg a (List.mem_cons_self a rest)
    simp [List.filterMap_cons, ha, ih (fun n hn => hg n (List.mem_cons_of_mem a hn))]

/-- Membership transfers through `insertionSort`. -/
theorem mem_insertionSort {α : Type} (r : α → α → Prop) [DecidableRel r]
    {a : α} {l : List α} : a ∈ List.insertionSort r l ↔ a ∈ l :=
  (List.perm_insertionSort r l).mem_iff

/-- Strings differ when some character is in one but not the other. -/
theorem string_ne_of_mem_not_mem {s t : String} {c : Char}
    (h₁ : c ∈ s.data) (h₂ : c ∉ t.data) : s ≠ t := by
  intro h
  exact h₂ (h ▸ h₁)

/-- Strings differ when their final characters differ. -/
theorem string_ne_of_getLast_ne {s t : String}
    (h : s.data.getLast? ≠ t.data.getLast?) : s ≠ t := by
  intro he
  exact h (he ▸ rfl)

/-- Character equality follows from code-point equality. -/
theorem char_eq_of_toNat_eq {a b : Char} (h : a.toNat = b.toNat) : a = b := by
  apply Char.ext
  apply UInt32.eq_of_toBitVec_eq
  apply BitVec.eq_of_toNat_eq
  exact h

/-- Strings with equal character lists are equal. -/
theorem string_eq_of_data_eq {s t : String} (h : s.data = t.data) : s = t := by
  cases s
  cases t
  exact congrArg String.mk h

/-- Head-to-head characterization of the lexicographic order. -/
theorem listLeChars_cons_iff {a b : Char} {as bs : List Char} :
    listLeChars (a :: as) (b :: bs) = true ↔
      (a.toNat < b.toNat ∨ (a.toNat = b.toNat ∧ listLeChars as bs = true)) := by
  simp only [listLeChars]
  by_cases h1 : a.toNat < b.toNat
  · simp [h1]
  · by_cases h2 : b.toNat < a.toNat
    · simp [h1, h2]
      omega
    · have he : a.toNat = b.toNat := by omega
      simp [h1, h2, he]

/-- `listLeChars` is total. -/
theorem listLeChars_total : ∀ a b : List Char,
    listLeChars a b = true ∨ listLeChars b a = true
  | [], _ => Or.inl rfl
  | _ :: _, [] => Or.inr rfl
  | a :: as, b :: bs => by
    simp only [listLeChars]
    rcases Nat.lt_trichotomy a.toNat b.toNat with h | h | h
    · left
      simp [h]
    · have h1 : ¬ a.toNat < b.toNat := by omega
      have h2 : ¬ b.toNat < a.toNat := by omega
      simpa [h1, h2] using listLeChars_total as bs
    · right
      simp [h]

/-- `listLeChars` is transitive. -/
theorem listLeChars_trans : ∀ a b c : List Char,
    listLeChars a b = true → listLeChars b c = true → listLeChars a c = true
  | [], _, _, _, _ => rfl
  | _ :: _, [], _, hab, _ => by simp [listLeChars] at hab
  | _ :: _, _ :: _, [], _, hbc => by simp [listLeChars] at hbc
  | a :: as, b :: bs, c :: cs, hab, hbc => by
    rw [listLeChars_cons_iff] at hab hbc ⊢
    rcases hab with h | ⟨he₁, h₁⟩
    · rcases hbc with h' | ⟨he₂, _⟩
      · exact Or.inl (by omega)
      · exact Or.inl (by omega)
    · rcases hbc with h' | ⟨he₂, h₂⟩
      · exact Or.inl (by omega)
      · exact Or.inr ⟨by omega, listLeChars_trans as bs cs h₁ h₂⟩

/-- `listLeChars` is antisymmetric. -/
theorem listLeChars_antisymm : ∀ a b : List Char,
    listLeChars a b = true → listLeChars b a = true → a = b
  | [], [], _, _ => rfl
  | [], _ :: _, _, hba => by simp [listLeChars] at hba
  | _ :: _, [], hab, _ => by simp [listLeChars] at hab
  | a :: as, b :: bs, hab, hba => by
    rw [listLeChars_cons_iff] at hab hba
    rcases hab with h | ⟨he₁, h₁⟩
    · rcases hba with h' | ⟨he₂, _⟩
      · omega
      · omega
    · rcases hba with h' | ⟨he₂, h₂⟩
      · omega
      · rw [char_eq_of_toNat_eq he₁, listLeChars_antisymm as bs h₁ h₂]

instance : IsTotal String (fun a b => strLe a b = true) :=
  ⟨fun a b => listLeChars_total a.data b.data⟩

instance : IsTrans String (fun a b => strLe a b = true) :=
  ⟨fun a b c => listLeChars_trans a.data b.data c.data⟩

instance : IsAntisymm String (fun a b => strLe a b = true) :=
  ⟨fun a b hab hba => string_eq_of_data_eq (listLeChars_antisymm a.data b.data hab hba)⟩

/-- Upper-casing never produces an underscore. -/
theorem toUpper_ne_underscore {c : Char} (hc : c ≠ '_') : c.toUpper ≠ '_' := by
  unfold Char.toUpper
  by_cases h : c.toNat ≥ 97 ∧ c.toNat ≤ 122
  · simp only [h, and_self, if_true]
    obtain ⟨h1, h2⟩ := h
    generalize hn : c.toNat = n at h1 h2
    interval_cases n <;> decide
  · simp only [if_neg h]
    exact hc

/-- The pieces produced by `splitChar` do not contain the separator. -/
theorem splitChar_not_mem {sep : Char} : ∀ {l : List Char},
    ∀ p ∈ splitChar sep l, sep ∉ p := by
  intro l
  induction l with
  | nil =>
    intro p hp
    simp only [splitChar, List.mem_singleton] at hp
    simp [hp]
  | cons c cs ih =>
    intro p hp
    simp only [splitChar] at hp
    by_cases hc : (c == sep) = true
    · rw [if_pos hc] at hp
      rcases List.mem_cons.mp hp with h | h
      · simp [h]
      · exact ih p h
    · rw [if_neg hc] at hp
      rcases hsp : splitChar sep cs with _ | ⟨g, gs⟩
      · rw [hsp] at hp
        rcases List.mem_cons.mp hp with h | h
        · subst h
          intro hm
          rcases List.mem_singleton.mp hm with h
          exact hc (by simp [h])
        · cases h
      · rw [hsp] at hp
        rcases List.mem_cons.mp hp with h | h
        · subst h
          intro hm
          rcases List.mem_cons.mp hm with h | h
          · exact hc (by simp [h])
          · exact ih g (hsp ▸ List.mem_cons_self g gs) h
        · exact ih p (hsp ▸ List.mem_cons_of_mem g h)

/-- Camel-cased identifiers contain no underscore. -/
theorem camelData_no_underscore : ∀ {l : List Char}, '_' ∉ camelData l := by
  intro l hm
  unfold camelData at hm
  rcases List.mem_flatten.mp hm with ⟨piece, hpiece, hmem⟩
  rcases List.mem_map.mp hpiece with ⟨raw, hraw, hcap⟩
  have hraw_no : '_' ∉ raw := splitChar_not_mem raw hraw
  subst hcap
  cases raw with
  | nil => cases hmem
  | cons c cs =>
    rcases List.mem_cons.mp hmem with h | h
    · have hc : c ≠ '_' := fun he => hraw_no (he ▸ List.mem_cons_self c cs)
      exact toUpper_ne_underscore hc h.symm
    · exact hraw_no (List.mem_cons_of_mem c h)

/-- A camel-cased identifier is never classified as a navigation field. -/
theorem camel_not_nav {l : List Char} :
    strStarts (String.mk (camelData l)) "_nav_" = false := by
  rw [Bool.eq_false_iff]
  intro h
  rw [strStarts, List.isPrefixOf_iff_prefix] at h
  exact camelData_no_underscore (h.subset (by decide))

/-- A camel-cased identifier never ends in `_type`. -/
theorem camel_not_type_suffix {l : List Char} :
    strEnds (String.mk (camelData l)) "_type" = false := by
  rw [Bool.eq_false_iff]
  intro h
  rw [strEnds, List.isSuffixOf_iff_suffix] at h
  exact camelData_no_underscore (h.subset (by decide))

/-- `CompileModel` output decomposed into its three segments: sorted data
fields, foreign-key fields by sorted relation name, navigation fields by
sorted relation name. -/
theorem compileModel_fields (m : Model) (r : Registry) :
    (compileModel m r).fields =
      (List.insertionSort (fun a b => strLe a b = true) (m.fields.map Prod.fst)).filterMap
        (fun n => (lookupA m.fields n).map (fun t => (⟨n, getFieldType t⟩ : FormatField))) ++
      (List.insertionSort (fun a b => strLe a b = true) (m.related.map Prod.fst)).flatMap
        (fun n => match lookupA m.related n with
          | some rel => fkFieldsOfRelation n rel
          | none => []) ++
      (List.insertionSort (fun a b => strLe a b = true) (m.related.map Prod.fst)).filterMap
        (fun n => (lookupA m.related n).map (fun rel => navFieldOfRelation n rel r)) := by
  unfold compileModel
  by_cases h : m.related.isEmpty
  · have hrel : m.related = [] := by
      cases hml : m.related
      · rfl
      · rw [hml] at h
        cases h
    simp [hrel, List.insertionSort]
  · simp [h]

/-- The names of the compiled data-field segment are exactly the sorted
field names (the lookups all succeed). -/
theorem map_name_filterMap_lookup {fields : List (String × String)} :
    ∀ {ns : List String}, (∀ n ∈ ns, ∃ v, lookupA fields n = some v) →
      ((ns.filterMap (fun n =>
        (lookupA fields n).map (fun t => (⟨n, getFieldType t⟩ : FormatField)))).map
          FormatField.name) = ns := by
  intro ns
  induction ns with
  | nil => intro _; rfl
  | cons a rest ih =>
    intro h
    rcases h a (List.mem_cons_self a rest) with ⟨v, hv⟩
    simp only [List.filterMap_cons, hv, Option.map_some']
    simp only [List.map_cons]
    rw [ih (fun n hn => h n (List.mem_cons_of_mem a hn))]

/-- The names of the compiled navigation-field segment are exactly the
sorted relation names with the `_nav_` marker. -/
theorem map_name_filterMap_nav {related : List (String × Relation)} {r : Registry} :
    ∀ {ns : List String}, (∀ n ∈ ns, ∃ v, lookupA related n = some v) →
      ((ns.filterMap (fun n =>
        (lookupA related n).map (fun rel => navFieldOfRelation n rel r))).map
          FormatField.name) = ns.map (fun n => "_nav_" ++ n) := by
  intro ns
  induction ns with
  | nil => intro _; rfl
  | cons a rest ih =>
    intro h
    rcases h a (List.mem_cons_self a rest) with ⟨v, hv⟩
    simp only [List.filterMap_cons, hv, Option.map_some']
    simp only [List.map_cons]
    rw [ih (fun n hn => h n (List.mem_cons_of_mem a hn))]
    rfl

/-- Soft-degradation lemma: when no model owns a polymorphic relation named
like the `through` value, resolution returns `none`. -/
theorem resolvePolymorphicThrough_eq_none {through : String} {r : Registry}
    (h : ∀ p ∈ r.models, ∀ q ∈ p.2.related, q.1 = through →
      isRelationPoly q.2.relType = false) :
    resolvePolymorphicThrough through r = none := by
  unfold resolvePolymorphicThrough Registry.getAllModels
  rw [List.findSome?_eq_none_iff]
  intro p hp
  have hany : p.2.related.any (fun q => q.1 == through && isRelationPoly q.2.relType) = false := by
    rw [List.any_eq_false]
    intro q hq
    simp only [Bool.and_eq_true, beq_iff_eq, not_and]
    intro hqe
    simp [h p hp q hq hqe]
  simp [hany]

/-! ## Case-conversion lemmas -/

/-- The order on `UInt32` is the order on the underlying naturals. -/
theorem uint32_le_iff {a b : UInt32} : a ≤ b ↔ a.toNat ≤ b.toNat := Iff.rfl

/-- A lowercase character is not uppercase. -/
theorem isUpper_eq_false_of_isLower {c : Char} (h : c.isLower = true) :
    c.isUpper = false := by
  unfold Char.isLower at h
  unfold Char.isUpper
  simp only [Bool.and_eq_true, decide_eq_true_eq] at h
  have h1 : (97 : Nat) ≤ c.val.toNat := uint32_le_iff.mp h.1
  simp only [Bool.and_eq_false_iff, decide_eq_false_iff_not]
  right
  intro hle
  have h2 : c.val.toNat ≤ (90 : Nat) := uint32_le_iff.mp hle
  omega

/-- One-step unfolding of the snake-case conversion. -/
theorem snakeAux_cons (prev : Option Char) (c : Char) (rest : List Char) :
    snakeAux prev (c :: rest) =
      if snakeBreak prev c rest = true then '_' :: c.toLower :: snakeAux (some c) rest
      else c.toLower :: snakeAux (some c) rest := rfl

/-- Lower-casing a lowercase character is the identity. -/
theorem toLower_of_lower {c : Char} (h : c.isLower = true) : c.toLower = c := by
  unfold Char.toLower
  have h1 : ¬ (c.toNat ≥ 65 ∧ c.toNat ≤ 90) := by
    unfold Char.isLower at h
    simp only [Bool.and_eq_true, decide_eq_true_eq] at h
    have h2 : (97 : Nat) ≤ c.val.toNat := uint32_le_iff.mp h.1
    unfold Char.toNat
    omega
  simp [h1]

/-- Upper-casing preserves alphabetic characters. -/
theorem toUpper_isAlpha {c : Char} (h : c.isAlpha = true) : c.toUpper.isAlpha = true := by
  unfold Char.toUpper
  by_cases hr : c.toNat ≥ 97 ∧ c.toNat ≤ 122
  · simp only [hr, and_self, if_true]
    obtain ⟨h1, h2⟩ := hr
    generalize hn : c.toNat = n at h1 h2
    interval_cases n <;> decide
  · simp only [if_neg hr]
    exact h

/-- Splitting a separator-free list yields the single piece. -/
theorem splitChar_no_sep {sep : Char} : ∀ {l : List Char}, sep ∉ l →
    splitChar sep l = [l] := by
  intro l
  induction l with
  | nil => intro _; rfl
  | cons c cs ih =>
    intro h
    have hc : (c == sep) = false := by
      simp only [beq_eq_false_iff_ne, ne_eq]
      intro he
      exact h (he ▸ List.mem_cons_self c cs)
    have hcs : sep ∉ cs := fun hm => h (List.mem_cons_of_mem c hm)
    simp [splitChar, hc, ih hcs]

/-- Splitting at the first separator. -/
theorem splitChar_append_sep {sep : Char} : ∀ {A B : List Char}, sep ∉ A →
    splitChar sep (A ++ sep :: B) = A :: splitChar sep B := by
  intro A
  induction A with
  | nil =>
    intro B _
    simp [splitChar]
  | cons a A' ih =>
    intro B h
    have ha : (a == sep) = false := by
      simp only [beq_eq_false_iff_ne, ne_eq]
      intro he
      exact h (he ▸ List.mem_cons_self a A')
    have hA' : sep ∉ A' := fun hm => h (List.mem_cons_of_mem a hm)
    simp [splitChar, ha, ih hA']

/-- Alphabetic identifiers contain no underscore. -/
theorem alpha_no_underscore {A : List Char} (h : ∀ c ∈ A, c.isAlpha = true) :
    '_' ∉ A := by
  intro hm
  have := h '_' hm
  simp at this

/-- Camel-casing across a single separator concatenates the capitalized
pieces. -/
theorem camelData_append {A B : List Char} (hA : '_' ∉ A) (hB : '_' ∉ B) :
    camelData (A ++ '_' :: B) = capitalizeData A ++ capitalizeData B := by
  unfold camelData
  rw [splitChar_append_sep hA, splitChar_no_sep hB]
  simp

/-- Capitalizing preserves the all-alphabetic property. -/
theorem capitalizeData_alpha {A : List Char} (h : ∀ c ∈ A, c.isAlpha = true) :
    ∀ c ∈ capitalizeData A, c.isAlpha = true := by
  cases A with
  | nil => intro c hc; cases hc
  | cons a A' =>
    intro c hc
    rcases List.mem_cons.mp hc with h' | h'
    · subst h'
      exact toUpper_isAlpha (h a (List.mem_cons_self a A'))
    · exact h c (List.mem_cons_of_mem a h')

/-- Snake-casing a run of lowercase characters is the identity whatever
precedes it. -/
theorem snakeAux_lower : ∀ {tail : List Char}, (∀ c ∈ tail, c.isLower = true) →
    ∀ prev, snakeAux prev tail = tail := by
  intro tail
  induction tail with
  | nil => intro _ _; rfl
  | cons c cs ih =>
    intro h prev
    have hc : c.isLower = true := h c (List.mem_cons_self c cs)
    have hcu : c.isUpper = false := isUpper_eq_false_of_isLower hc
    have hbreak : snakeBreak prev c cs = false := by
      unfold snakeBreak
      simp [hcu]
    rw [snakeAux_cons, if_neg (by rw [hbreak]; exact Bool.false_ne_true),
      toLower_of_lower hc, ih (fun x hx => h x (List.mem_cons_of_mem c hx)) (some c)]

/-- Snake-casing an alphabetic run followed by a capitalized lowercase
tail inserts exactly one underscore before the tail. -/
theorem snakeAux_alpha_append (u : Char) (t0 : Char) (ts : List Char)
    (hu : u.isUpper = true) (ht0 : t0.isLower = true)
    (hts : ∀ c ∈ ts, c.isLower = true) :
    ∀ A : List Char, A ≠ [] → (∀ c ∈ A, c.isAlpha = true) → ∀ prev,
      ∃ B : List Char, B ≠ [] ∧
        snakeAux prev (A ++ u :: t0 :: ts) = B ++ '_' :: u.toLower :: t0 :: ts := by
  intro A
  induction A with
  | nil => intro h; exact absurd rfl h
  | cons a A' ih =>
    intro _ halpha prev
    have ha : a.isAlpha = true := halpha a (List.mem_cons_self a A')
    cases A' with
    | nil =>
      have hbreak : snakeBreak (some a) u (t0 :: ts) = true := by
        unfold snakeBreak
        unfold Char.isAlpha at ha
        rcases (Bool.or_eq_true _ _).mp ha with h' | h'
        · simp [hu, h', ht0]
        · simp [hu, h', ht0, isUpper_eq_false_of_isLower h']
      have htail : snakeAux (some u) (t0 :: ts) = t0 :: ts := by
        apply snakeAux_lower
        intro c hc
        rcases List.mem_cons.mp hc with h' | h'
        · exact h' ▸ ht0
        · exact hts c h'
      have hrec : snakeAux (some a) (u :: t0 :: ts) = '_' :: u.toLower :: t0 :: ts := by
        rw [snakeAux_cons, if_pos hbreak, htail]
      have hshape : ([a] ++ u :: t0 :: ts) = a :: (u :: t0 :: ts) := rfl
      rw [hshape]
      by_cases hb : snakeBreak prev a (u :: t0 :: ts) = true
      · refine ⟨['_', a.toLower], by simp, ?_⟩
        rw [snakeAux_cons, if_pos hb, hrec]
        rfl
      · refine ⟨[a.toLower], by simp, ?_⟩
        rw [snakeAux_cons, if_neg hb, hrec]
        rfl
    | cons a2 A2 =>
      have halpha' : ∀ c ∈ a2 :: A2, c.isAlpha = true := by
        intro c hc
        exact halpha c (List.mem_cons_of_mem a hc)
      rcases ih (by intro h; cases h) halpha' (some a) with ⟨B, hBne, hB⟩
      have hshape : ((a :: a2 :: A2) ++ u :: t0 :: ts) = a :: ((a2 :: A2) ++ u :: t0 :: ts) := rfl
      rw [hshape]
      by_cases hb : snakeBreak prev a ((a2 :: A2) ++ u :: t0 :: ts) = true
      · refine ⟨'_' :: a.toLower :: B, by simp, ?_⟩
        rw [snakeAux_cons, if_pos hb, hB]
        rfl
      · refine ⟨a.toLower :: B, by simp, ?_⟩
        rw [snakeAux_cons, if_neg hb, hB]
        rfl

/-- `contains` decides membership for strings. -/
theorem contains_iff_mem {l : List String} {x : String} : l.contains x = true ↔ x ∈ l := by
  constructor
  · intro h
    rw [List.contains_eq_any_beq] at h
    rcases List.any_eq_true.mp h with ⟨a, ha, he⟩
    rw [beq_iff_eq] at he
    exact he ▸ ha
  · intro h
    rw [List.contains_eq_any_beq]
    exact List.any_eq_true.mpr ⟨x, h, beq_self_eq_true x⟩

/-- No Python reserved word contains an underscore. -/
theorem reserved_no_underscore {s : String} (h : '_' ∈ s.data) :
    sanitizePythonIdentifier s = s := by
  unfold sanitizePythonIdentifier
  rw [if_neg]
  intro hmem
  have hall : ∀ w ∈ pythonReserved, '_' ∉ w.data := by decide
  exact hall s (contains_iff_mem.mp hmem) h

/-! ## Import tracker lemmas -/

/-- `containsString` decides list membership. -/
theorem containsString_iff {l : List String} {x : String} :
    containsString l x = true ↔ x ∈ l := by
  simp [containsString, List.any_eq_true, beq_iff_eq]

/-- Adding a single already-present typing import is a no-op. -/
theorem addTyping_of_mem {st : ImportTracker} {x : String} (h : x ∈ st.typing) :
    addTyping st [x] = st := by
  simp [addTyping, containsString_iff.mpr h]

/-- Adding a single already-present pydantic import is a no-op. -/
theorem addPydantic_of_mem {st : ImportTracker} {x : String} (h : x ∈ st.pydantic) :
    addPydantic st [x] = st := by
  simp [addPydantic, containsString_iff.mpr h]

/-- `AddTyping` only grows the typing component. -/
theorem addTyping_spec : ∀ (l : List String) (st : ImportTracker),
    (addTyping st l).pydantic = st.pydantic ∧
    (addTyping st l).datetime = st.datetime ∧
    (addTyping st l).enums = st.enums ∧
    (addTyping st l).models = st.models ∧
    (addTyping st l).registry = st.registry ∧
    (∀ x ∈ st.typing, x ∈ (addTyping st l).typing)
  | [], st => by simp [addTyping]
  | a :: rest, st => by
    by_cases h : containsString st.typing a
    · have heq : addTyping st (a :: rest) = addTyping st rest := by
        simp [addTyping, h]
      rw [heq]
      exact addTyping_spec rest st
    · have heq : addTyping st (a :: rest) =
          addTyping { st with typing := st.typing ++ [a] } rest := by
        simp [addTyping, h]
      rw [heq]
      have hs := addTyping_spec rest { st with typing := st.typing ++ [a] }
      refine ⟨hs.1, hs.2.1, hs.2.2.1, hs.2.2.2.1, hs.2.2.2.2.1, ?_⟩
      intro x hx
      exact hs.2.2.2.2.2 x (List.mem_append_left _ hx)

/-- The single added typing import is present afterwards. -/
theorem addTyping_mem {st : ImportTracker} {x : String} :
    x ∈ (addTyping st [x]).typing := by
  by_cases h : containsString st.typing x
  · rw [addTyping_of_mem (containsString_iff.mp h)]
    exact containsString_iff.mp h
  · simp [addTyping, h]

/-- The element inserted into a set is a member afterwards. -/
theorem insertSet_mem_self {l : List String} {x : String} : x ∈ insertSet l x := by
  unfold insertSet
  split
  · rename_i hcond
    exact contains_iff_mem.mp hcond
  · exact List.mem_append_right _ (List.mem_singleton.mpr rfl)

/-- `insertSet` only grows the set. -/
theorem insertSet_mem_mono {l : List String} {x y : String} (h : y ∈ l) :
    y ∈ insertSet l x := by
  unfold insertSet
  split
  · exact h
  · exact List.mem_append_left _ h

/-- Inserting an already-present element is a no-op. -/
theorem insertSet_of_mem {l : List String} {x : String} (h : x ∈ l) :
    insertSet l x = l := by
  unfold insertSet
  rw [if_pos (contains_iff_mem.mpr h)]

/-- Growth relation between tracker states: memberships and the datetime
flag are preserved, the pydantic list and registry are unchanged. -/
def trackerMono (st st' : ImportTracker) : Prop :=
  st'.pydantic = st.pydantic ∧
  (∀ x ∈ st.typing, x ∈ st'.typing) ∧
  (∀ x ∈ st.enums, x ∈ st'.enums) ∧
  (∀ x ∈ st.models, x ∈ st'.models) ∧
  (st.datetime = true → st'.datetime = true) ∧
  st'.registry = st.registry

theorem trackerMono_refl (st : ImportTracker) : trackerMono st st :=
  ⟨rfl, fun _ h => h, fun _ h => h, fun _ h => h, fun h => h, rfl⟩

theorem trackerMono_trans {a b c : ImportTracker}
    (h₁ : trackerMono a b) (h₂ : trackerMono b c) : trackerMono a c :=
  ⟨h₂.1.trans h₁.1,
   fun x hx => h₂.2.1 x (h₁.2.1 x hx),
   fun x hx => h₂.2.2.1 x (h₁.2.2.1 x hx),
   fun x hx => h₂.2.2.2.1 x (h₁.2.2.2.1 x hx),
   fun h => h₂.2.2.2.2.1 (h₁.2.2.2.2.1 h),
   h₂.2.2.2.2.2.trans h₁.2.2.2.2.2⟩

/-- `AddTyping` grows the state. -/
theorem addTyping_trackerMono (st : ImportTracker) (l : List String) :
    trackerMono st (addTyping st l) := by
  have h := addTyping_spec l st
  exact ⟨h.1, h.2.2.2.2.2, fun x hx => h.2.2.1 ▸ hx, fun x hx => h.2.2.2.1 ▸ hx,
    fun hd => h.2.1 ▸ hd, h.2.2.2.2.1⟩

/-- One inner-type tracking step grows the state. -/
theorem trackInnerType_trackerMono (st : ImportTracker) (ty : String) :
    trackerMono st (trackInnerType st ty) := by
  unfold trackInnerType
  by_cases hc : (ty != "" && !isBasicType ty) = true
  · simp only [hc, if_true]
    split
    · exact ⟨rfl, fun _ h => h, fun x hx => insertSet_mem_mono hx, fun _ h => h,
        fun h => h, rfl⟩
    · refine trackerMono_trans (b := { st with models := insertSet st.models ty }) ?_ ?_
      · exact ⟨rfl, fun _ h => h, fun _ h => h, fun x hx => insertSet_mem_mono hx,
          fun h => h, rfl⟩
      · exact addTyping_trackerMono _ _
    · exact trackerMono_refl st
  · simp only [hc, if_false, ite_false]
    exact trackerMono_refl st

/-- The inner-type fold grows the state. -/
theorem foldl_trackInnerType_trackerMono (tys : List String) :
    ∀ st : ImportTracker, trackerMono st (tys.foldl trackInnerType st) := by
  induction tys with
  | nil => exact fun st => trackerMono_refl st
  | cons a rest ih =>
    intro st
    exact trackerMono_trans (trackInnerType_trackerMono st a) (ih (trackInnerType st a))

/-- Saturation of a tracker state for one inner type: tracking it again
would change nothing. -/
def innerSaturated (st : ImportTracker) (ty : String) : Prop :=
  (ty != "" && !isBasicType ty) = true →
    (resolveFieldType ty st.registry = "enum" → ty ∈ st.enums) ∧
    (resolveFieldType ty st.registry = "model" →
      ty ∈ st.models ∧ "TYPE_CHECKING" ∈ st.typing)

/-- Saturation survives growth. -/
theorem innerSaturated_mono {st st' : ImportTracker} {ty : String}
    (hm : trackerMono st st') (hs : innerSaturated st ty) : innerSaturated st' ty := by
  intro hc
  have hreg : st'.registry = st.registry := hm.2.2.2.2.2
  rw [hreg]
  rcases hs hc with ⟨he, hmo⟩
  exact ⟨fun h => hm.2.2.1 ty (he h),
    fun h => ⟨hm.2.2.2.1 ty ((hmo h).1), hm.2.1 _ ((hmo h).2)⟩⟩

/-- One tracking step saturates its own inner type. -/
theorem trackInnerType_saturates (st : ImportTracker) (ty : String) :
    innerSaturated (trackInnerType st ty) ty := by
  intro hc
  unfold trackInnerType
  rw [if_pos hc]
  split
  · rename_i heq
    constructor
    · intro _
      exact insertSet_mem_self
    · intro hmodel
      have h' : resolveFieldType ty st.registry = "model" := hmodel
      rw [heq] at h'
      exact absurd h' (by decide)
  · rename_i heq
    have hspec := addTyping_spec ["TYPE_CHECKING"] { st with models := insertSet st.models ty }
    constructor
    · intro henum
      have h' : resolveFieldType ty st.registry = "enum" := by
        have h'' := henum
        rw [hspec.2.2.2.2.1] at h''
        exact h''
      rw [heq] at h'
      exact absurd h' (by decide)
    · intro _
      refine ⟨?_, addTyping_mem⟩
      rw [hspec.2.2.2.1]
      exact insertSet_mem_self
  · rename_i h1 h2
    constructor
    · intro henum
      exact absurd henum h1
    · intro hmodel
      exact absurd hmodel h2

/-- A tracking step on a state saturated for that inner type is the
identity. -/
theorem trackInnerType_of_saturated {st : ImportTracker} {ty : String}
    (hs : innerSaturated st ty) : trackInnerType st ty = st := by
  unfold trackInnerType
  by_cases hc : (ty != "" && !isBasicType ty) = true
  · rw [if_pos hc]
    rcases hs hc with ⟨he, hmo⟩
    split
    · rename_i heq
      rw [insertSet_of_mem (he heq)]
    · rename_i heq
      rcases hmo heq with ⟨hm, ht⟩
      rw [insertSet_of_mem hm]
      exact addTyping_of_mem ht
    · rfl
  · rw [if_neg hc]

/-- After the fold every processed inner type is saturated. -/
theorem foldl_trackInnerType_saturates (tys : List String) :
    ∀ st : ImportTracker, ∀ ty ∈ tys, innerSaturated (tys.foldl trackInnerType st) ty := by
  induction tys with
  | nil => intro st ty h; cases h
  | cons a rest ih =>
    intro st ty hty
    rcases List.mem_cons.mp hty with h | h
    · subst h
      exact innerSaturated_mono (foldl_trackInnerType_trackerMono rest _)
        (trackInnerType_saturates st ty)
    · exact ih (trackInnerType st a) ty h

/-- The fold is the identity on a state saturated for every processed inner
type. -/
theorem foldl_trackInnerType_of_saturated (tys : List String) :
    ∀ st : ImportTracker, (∀ ty ∈ tys, innerSaturated st ty) →
      tys.foldl trackInnerType st = st := by
  induction tys with
  | nil => intro st _; rfl
  | cons a rest ih =>
    intro st h
    have ha : trackInnerType st a = st :=
      trackInnerType_of_saturated (h a (List.mem_cons_self a rest))
    simp only [List.foldl_cons, ha]
    exact ih st (fun ty hty => h ty (List.mem_cons_of_mem a hty))

/-- A conditional typing addition grows the state. -/
theorem addTypingIf_mono (c : Bool) (x : String) (st : ImportTracker) :
    trackerMono st (addTypingIf c x st) := by
  unfold addTypingIf
  split
  · exact addTyping_trackerMono st [x]
  · exact trackerMono_refl st

/-- After a satisfied conditional typing addition the import is present. -/
theorem addTypingIf_mem {c : Bool} {x : String} {st : ImportTracker} (h : c = true) :
    x ∈ (addTypingIf c x st).typing := by
  unfold addTypingIf
  rw [if_pos h]
  exact addTyping_mem

/-- A conditional typing addition whose import is already present is the
identity. -/
theorem addTypingIf_of_sat {c : Bool} {x : String} {st : ImportTracker}
    (h : c = true → x ∈ st.typing) : addTypingIf c x st = st := by
  unfold addTypingIf
  split
  · rename_i hc
    exact addTyping_of_mem (h hc)
  · rfl

/-- Setting an already-set datetime flag is the identity. -/
theorem tracker_eta_dt {st : ImportTracker} (h : st.datetime = true) :
    ({ st with datetime := true } : ImportTracker) = st := by
  obtain ⟨p, ty, d, e, mo, r⟩ := st
  simp only at h
  subst h
  rfl

/-- The datetime check grows the state. -/
theorem dtIf_mono (t : String) (st : ImportTracker) : trackerMono st (dtIf t st) := by
  unfold dtIf
  split
  · exact ⟨rfl, fun _ h => h, fun _ h => h, fun _ h => h, fun _ => rfl, rfl⟩
  · exact trackerMono_refl st

/-- After a satisfied datetime check the flag is set. -/
theorem dtIf_dt {t : String} {st : ImportTracker}
    (h : (t == "datetime" || strHas t "datetime") = true) : (dtIf t st).datetime = true := by
  unfold dtIf
  rw [if_pos h]

/-- A datetime check whose flag is already accounted for is the identity. -/
theorem dtIf_of_sat {t : String} {st : ImportTracker}
    (h : (t == "datetime" || strHas t "datetime") = true → st.datetime = true) :
    dtIf t st = st := by
  unfold dtIf
  split
  · rename_i hc
    exact tracker_eta_dt (h hc)
  · rfl

/-- Saturation of a tracker state for a tracked type expression: tracking
it again would change nothing. -/
def trackSaturated (st : ImportTracker) (t : String) : Prop :=
  (strHas t "Optional[" = true → "Optional" ∈ st.typing) ∧
  (strHas t "List[" = true → "List" ∈ st.typing) ∧
  (strHas t "Union[" = true → "Union" ∈ st.typing) ∧
  (strHas t "Dict[" = true → "Dict" ∈ st.typing) ∧
  (strHas t "Any" = true → "Any" ∈ st.typing) ∧
  (strHas t "Literal[" = true → "Literal" ∈ st.typing) ∧
  ((t == "datetime" || strHas t "datetime") = true → st.datetime = true) ∧
  (∀ ty ∈ extractAllInnerTypes t, innerSaturated st ty)

/-- `TrackFieldType` saturates its own type expression. -/
theorem trackFieldType_saturates (it : ImportTracker) (t : String) :
    trackSaturated (trackFieldType it t) t := by
  show trackSaturated
    ((extractAllInnerTypes t).foldl trackInnerType
      (dtIf t (addTypingIf (strHas t "Literal[") "Literal"
        (addTypingIf (strHas t "Any") "Any"
          (addTypingIf (strHas t "Dict[") "Dict"
            (addTypingIf (strHas t "Union[") "Union"
              (addTypingIf (strHas t "List[") "List"
                (addTypingIf (strHas t "Optional[") "Optional" it)))))))) t
  set s1 := addTypingIf (strHas t "Optional[") "Optional" it with hs1
  set s2 := addTypingIf (strHas t "List[") "List" s1 with hs2
  set s3 := addTypingIf (strHas t "Union[") "Union" s2 with hs3
  set s4 := addTypingIf (strHas t "Dict[") "Dict" s3 with hs4
  set s5 := addTypingIf (strHas t "Any") "Any" s4 with hs5
  set s6 := addTypingIf (strHas t "Literal[") "Literal" s5 with hs6
  set s7 := dtIf t s6 with hs7
  set sf := (extractAllInnerTypes t).foldl trackInnerType s7 with hsf
  have m7f : trackerMono s7 sf := foldl_trackInnerType_trackerMono _ _
  have m6f : trackerMono s6 sf := trackerMono_trans (dtIf_mono t s6) m7f
  have m5f : trackerMono s5 sf := trackerMono_trans (addTypingIf_mono _ _ _) m6f
  have m4f : trackerMono s4 sf := trackerMono_trans (addTypingIf_mono _ _ _) m5f
  have m3f : trackerMono s3 sf := trackerMono_trans (addTypingIf_mono _ _ _) m4f
  have m2f : trackerMono s2 sf := trackerMono_trans (addTypingIf_mono _ _ _) m3f
  have m1f : trackerMono s1 sf := trackerMono_trans (addTypingIf_mono _ _ _) m2f
  refine ⟨?_, ?_, ?_, ?_, ?_, ?_, ?_, ?_⟩
  · intro hc
    exact m1f.2.1 _ (addTypingIf_mem hc)
  · intro hc
    exact m2f.2.1 _ (addTypingIf_mem hc)
  · intro hc
    exact m3f.2.1 _ (addTypingIf_mem hc)
  · intro hc
    exact m4f.2.1 _ (addTypingIf_mem hc)
  · intro hc
    exact m5f.2.1 _ (addTypingIf_mem hc)
  · intro hc
    exact m6f.2.1 _ (addTypingIf_mem hc)
  · intro hc
    exact m7f.2.2.2.2.1 (dtIf_dt hc)
  · exact foldl_trackInnerType_saturates _ s7

/-- `TrackFieldType` on a saturated state is the identity. -/
theorem trackFieldType_of_saturated {st : ImportTracker} {t : String}
    (h : trackSaturated st t) : trackFieldType st t = st := by
  show (extractAllInnerTypes t).foldl trackInnerType
      (dtIf t (addTypingIf (strHas t "Literal[") "Literal"
        (addTypingIf (strHas t "Any") "Any"
          (addTypingIf (strHas t "Dict[") "Dict"
            (addTypingIf (strHas t "Union[") "Union"
              (addTypingIf (strHas t "List[") "List"
                (addTypingIf (strHas t "Optional[") "Optional" st))))))) = st
  rw [addTypingIf_of_sat h.1, addTypingIf_of_sat h.2.1, addTypingIf_of_sat h.2.2.1,
    addTypingIf_of_sat h.2.2.2.1, addTypingIf_of_sat h.2.2.2.2.1,
    addTypingIf_of_sat h.2.2.2.2.2.1, dtIf_of_sat h.2.2.2.2.2.2.1]
  exact foldl_trackInnerType_of_saturated _ st h.2.2.2.2.2.2.2

/-! ## Rendering lemmas -/

/-- A successful lookup means the key is present. -/
theorem lookupA_mem_keys {α : Type} {l : List (String × α)} {k : String} {v : α}
    (h : lookupA l k = some v) : k ∈ l.map Prod.fst := by
  unfold lookupA at h
  rcases Option.map_eq_some'.mp h with ⟨p, hfind, _⟩
  have hbeq := List.find?_some hfind
  have hmem := List.mem_of_find?_eq_some hfind
  rw [beq_iff_eq] at hbeq
  exact hbeq ▸ List.mem_map_of_mem Prod.fst hmem

/-- Keys of the polymorphic-discriminator map come from fields whose name
ends in `_type` with rendered type `str`. -/
theorem polyFold_keys (fs : List FormatField) :
    ∀ (acc : List (String × String)) (k : String),
      k ∈ ((fs.foldl (fun m f =>
        if strEnds f.name "_type" && f.type.getName == "str" then
          insertPolyMap m f.name ("_nav_" ++ trimSuf f.name "_type")
        else m) acc).map Prod.fst) →
      k ∈ acc.map Prod.fst ∨
        ∃ g ∈ fs, g.name = k ∧ (strEnds g.name "_type" && g.type.getName == "str") = true := by
  induction fs with
  | nil =>
    intro acc k h
    exact Or.inl h
  | cons f fs ih =>
    intro acc k h
    simp only [List.foldl_cons] at h
    rcases ih _ k h with h' | ⟨g, hg, hgk, hgc⟩
    · by_cases hc : (strEnds f.name "_type" && f.type.getName == "str") = true
      · rw [if_pos hc] at h'
        unfold insertPolyMap at h'
        split at h'
        · exact Or.inl h'
        · rw [List.map_append] at h'
          rcases List.mem_append.mp h' with h'' | h''
          · exact Or.inl h''
          · simp only [List.map_cons, List.map_nil, List.mem_singleton] at h''
            exact Or.inr ⟨f, List.mem_cons_self f fs, h''.symm, hc⟩
      · rw [if_neg hc] at h'
        exact Or.inl h'
    · exact Or.inr ⟨g, List.mem_cons_of_mem f hg, hgk, hgc⟩

/-- The polymorphic-discriminator map has no entry for a field name that
never satisfies the discriminator condition. -/
theorem polyMapOf_lookup_none {model : FormatStruct} {k : String}
    (h : ∀ g ∈ model.fields, g.name = k →
      (strEnds g.name "_type" && g.type.getName == "str") = false) :
    lookupA (polyMapOf model) k = none := by
  rcases hl : lookupA (polyMapOf model) k with _ | v
  · rfl
  · exfalso
    have hk := lookupA_mem_keys hl
    unfold polyMapOf at hk
    rcases polyFold_keys _ _ _ hk with h' | ⟨g, hg, hgk, hgc⟩
    · simp at h'
    · have hgmem : g ∈ model.fields := List.mem_of_mem_filter hg
      rw [h g hgmem hgk] at hgc
      cases hgc

/-- Rendering a data field without type hints. -/
theorem renderDataField_nohints {polyMap : List (String × String)}
    {model : FormatStruct} {config : PydanticConfig} {f : FormatField}
    (h : config.addTypeHints = false) :
    renderDataField polyMap model config f =
      "    " ++ sanitizePythonIdentifier (toSnakeCase f.name) ++ " = None" := by
  unfold renderDataField
  rw [if_neg (by rw [h]; exact Bool.false_ne_true)]

/-- Rendering a foreign-key-style data field with type hints: optional with
default. -/
theorem renderDataField_fk {polyMap : List (String × String)}
    {model : FormatStruct} {config : PydanticConfig} {f : FormatField}
    (hhints : config.addTypeHints = true)
    (hnone : lookupA polyMap f.name = none)
    (hlen : 3 < (sanitizePythonIdentifier (toSnakeCase f.name)).data.length)
    (hsuf : strEnds (sanitizePythonIdentifier (toSnakeCase f.name)) "_id" = true ∨
            strEnds (sanitizePythonIdentifier (toSnakeCase f.name)) "_type" = true) :
    renderDataField polyMap model config f =
      "    " ++ sanitizePythonIdentifier (toSnakeCase f.name) ++ ": Optional[" ++
        f.type.getName ++ "] = None" := by
  unfold renderDataField
  rw [if_pos hhints, hnone]
  have hcond : (decide (3 < (sanitizePythonIdentifier (toSnakeCase f.name)).data.length) &&
      (strEnds (sanitizePythonIdentifier (toSnakeCase f.name)) "_id" ||
       strEnds (sanitizePythonIdentifier (toSnakeCase f.name)) "_type")) = true := by
    rcases hsuf with h' | h' <;>
    · simp only [h', Bool.true_or, Bool.or_true, Bool.and_true, decide_eq_true_eq]
      exact hlen
  rw [if_pos hcond]

/-- Appending a suffix yields that suffix. -/
theorem strEnds_append (s t : String) : strEnds (s ++ t) t = true := by
  unfold strEnds
  rw [List.isSuffixOf_iff_suffix, String.data_append]
  exact ⟨s.data, rfl⟩

/-- A suffix of the appended part is a suffix of the whole. -/
theorem strEnds_append_of_suffix {s t u : String} (h : u.data <:+ t.data) :
    strEnds (s ++ t) u = true := by
  unfold strEnds
  rw [List.isSuffixOf_iff_suffix, String.data_append]
  exact h.trans (List.suffix_append s.data t.data)

/-- Every rendered data-field line of a compiled model appears in the
generated content. -/
theorem dataLine_mem {model : FormatStruct} {config : PydanticConfig}
    {mc : MorpheConfig} {r : Registry} {f : FormatField}
    (hf : f ∈ model.fields) (hnav : isNavField f = false) :
    renderDataField (polyMapOf model) model config f ∈
      generateModelContentLines model config mc r := by
  unfold generateModelContentLines
  refine List.mem_append.mpr (Or.inr ?_)
  have hne : model.fields.isEmpty = false := by
    cases hm : model.fields
    · rw [hm] at hf
      cases hf
    · rfl
  rw [if_neg (by rw [hne]; exact Bool.false_ne_true)]
  refine List.mem_append.mpr (Or.inl (List.mem_append.mpr (Or.inl ?_)))
  refine List.mem_map.mpr ⟨f, ?_, rfl⟩
  rw [List.mem_filter]
  exact ⟨hf, by rw [hnav]; rfl⟩

/-- Underscore membership kills the reserved-word check, also through a
data-level description of the string. -/
theorem sanitize_id_of_data {s : String} {B : List Char} {tail : List Char}
    (hdata : s.data = B ++ '_' :: tail) : sanitizePythonIdentifier s = s := by
  apply reserved_no_underscore
  rw [hdata]
  exact List.mem_append_right _ (List.mem_cons_self _ _)

/-- The snake-cased camel-cased `<relation>_id` name: reserved-word-free,
longer than three characters, ending in `_id`. -/
theorem fk_id_name_props {relName : String} (hne : relName ≠ "")
    (halpha : ∀ c ∈ relName.data, c.isAlpha = true) :
    sanitizePythonIdentifier (toSnakeCase (toCamelCase (relName ++ "_id"))) =
      toSnakeCase (toCamelCase (relName ++ "_id")) ∧
    3 < (sanitizePythonIdentifier (toSnakeCase (toCamelCase (relName ++ "_id")))).data.length ∧
    strEnds (sanitizePythonIdentifier (toSnakeCase (toCamelCase (relName ++ "_id")))) "_id" =
      true := by
  have hnound : '_' ∉ relName.data := alpha_no_underscore halpha
  have hdata : (relName ++ "_id").data = relName.data ++ '_' :: ['i', 'd'] :=
    String.data_append relName "_id"
  have hcap : camelData ((relName ++ "_id")).data = capitalizeData relName.data ++ ['I', 'd'] := by
    rw [hdata, camelData_append hnound (by decide)]
    rfl
  have hcapne : capitalizeData relName.data ≠ [] := by
    cases hd : relName.data with
    | nil =>
      exact absurd (string_eq_of_data_eq hd) hne
    | cons c cs => simp [capitalizeData]
  have hcapalpha := capitalizeData_alpha halpha
  rcases snakeAux_alpha_append 'I' 'd' [] (by decide) (by decide)
      (by intro c hc; cases hc) (capitalizeData relName.data) hcapne hcapalpha none with
    ⟨B, hBne, hB⟩
  have hlow : ('I'.toLower : Char) = 'i' := by decide
  have hsnake : (toSnakeCase (toCamelCase (relName ++ "_id"))).data = B ++ ['_', 'i', 'd'] := by
    show snakeAux none (camelData (relName ++ "_id").data) = B ++ ['_', 'i', 'd']
    rw [hcap]
    rw [show (capitalizeData relName.data ++ ['I', 'd']) =
      capitalizeData relName.data ++ 'I' :: 'd' :: [] from rfl]
    rw [hB, hlow]
  have hsan : sanitizePythonIdentifier (toSnakeCase (toCamelCase (relName ++ "_id"))) =
      toSnakeCase (toCamelCase (relName ++ "_id")) :=
    sanitize_id_of_data (by rw [hsnake])
  refine ⟨hsan, ?_, ?_⟩
  · rw [hsan, hsnake, List.length_append]
    have : 0 < B.length := List.length_pos.mpr hBne
    simp only [List.length_cons, List.length_nil]
    omega
  · rw [hsan]
    unfold strEnds
    rw [List.isSuffixOf_iff_suffix, hsnake]
    exact ⟨B, rfl⟩

/-- The snake-cased camel-cased `<relation>_type` name: reserved-word-free,
longer than three characters, ending in `_type`. -/
theorem fk_type_name_props {relName : String} (hne : relName ≠ "")
    (halpha : ∀ c ∈ relName.data, c.isAlpha = true) :
    sanitizePythonIdentifier (toSnakeCase (toCamelCase (relName ++ "_type"))) =
      toSnakeCase (toCamelCase (relName ++ "_type")) ∧
    3 < (sanitizePythonIdentifier (toSnakeCase (toCamelCase (relName ++ "_type")))).data.length ∧
    strEnds (sanitizePythonIdentifier (toSnakeCase (toCamelCase (relName ++ "_type")))) "_type" =
      true := by
  have hnound : '_' ∉ relName.data := alpha_no_underscore halpha
  have hdata : (relName ++ "_type").data = relName.data ++ '_' :: ['t', 'y', 'p', 'e'] :=
    String.data_append relName "_type"
  have hcap : camelData ((relName ++ "_type")).data =
      capitalizeData relName.data ++ ['T', 'y', 'p', 'e'] := by
    rw [hdata, camelData_append hnound (by decide)]
    rfl
  have hcapne : capitalizeData relName.data ≠ [] := by
    cases hd : relName.data with
    | nil =>
      exact absurd (string_eq_of_data_eq hd) hne
    | cons c cs => simp [capitalizeData]
  have hcapalpha := capitalizeData_alpha halpha
  rcases snakeAux_alpha_append 'T' 'y' ['p', 'e'] (by decide) (by decide)
      (by decide) (capitalizeData relName.data) hcapne hcapalpha none with
    ⟨B, hBne, hB⟩
  have hlow : ('T'.toLower : Char) = 't' := by decide
  have hsnake : (toSnakeCase (toCamelCase (relName ++ "_type"))).data =
      B ++ ['_', 't', 'y', 'p', 'e'] := by
    show snakeAux none (camelData (relName ++ "_type").data) = B ++ ['_', 't', 'y', 'p', 'e']
    rw [hcap]
    rw [show (capitalizeData relName.data ++ ['T', 'y', 'p', 'e']) =
      capitalizeData relName.data ++ 'T' :: 'y' :: ['p', 'e'] from rfl]
    rw [hB, hlow]
  have hsan : sanitizePythonIdentifier (toSnakeCase (toCamelCase (relName ++ "_type"))) =
      toSnakeCase (toCamelCase (relName ++ "_type")) :=
    sanitize_id_of_data (by rw [hsnake])
  refine ⟨hsan, ?_, ?_⟩
  · rw [hsan, hsnake, List.length_append]
    have : 0 < B.length := List.length_pos.mpr hBne
    simp only [List.length_cons, List.length_nil]
    omega
  · rw [hsan]
    unfold strEnds
    rw [List.isSuffixOf_iff_suffix, hsnake]
    exact ⟨B, rfl⟩

/-! ## Configuration-block line disjointness -/

/-- Strings differ when they differ at some index. -/
theorem ne_of_index {s t : String} {i : Nat} (h : s.data[i]? ≠ t.data[i]?) : s ≠ t :=
  fun he => h (he ▸ rfl)

/-- Indexing inside the left part of a string append. -/
theorem index_append_left {pre rest : String} {i : Nat} (hi : i < pre.data.length) :
    ((pre ++ rest)).data[i]? = pre.data[i]? := by
  rw [String.data_append]
  exact List.getElem?_append_left hi

/-- Strings differ when their last characters differ. -/
theorem ne_of_last {s t : String} (h : s.data.getLast? ≠ t.data.getLast?) : s ≠ t :=
  fun he => h (he ▸ rfl)

/-- The last character of a string append with concrete nonempty tail. -/
theorem last_append (s t : String) (c : Char) (h : t.data.getLast? = some c) :
    (s ++ t).data.getLast? = some c := by
  rw [String.data_append, List.getLast?_append, h]
  rfl

/-- A character of the appended middle part is a character of the whole. -/
theorem char_mem_append_middle {a b c : String} {ch : Char} (h : ch ∈ b.data) :
    ch ∈ (a ++ b ++ c).data := by
  rw [String.data_append, String.data_append]
  exact List.mem_append_left _ (List.mem_append_right _ h)

/-- A string containing a character another lacks differs from it. -/
theorem ne_of_char_mem {s t : String} {c : Char} (h₁ : c ∈ s.data) (h₂ : c ∉ t.data) :
    s ≠ t :=
  fun he => h₂ (he ▸ h₁)

/-- The v2 `model_config` opening line. -/
def cfgMarkerV2 : String := "    model_config = \x7b"

/-- The v1 `class Config:` line. -/
def cfgMarkerV1 : String := "    class Config:"

/-- The generated declaration contains a configuration block. -/
def hasConfigBlock (lines : List String) : Prop :=
  cfgMarkerV2 ∈ lines ∨ cfgMarkerV1 ∈ lines

/-- A typed field line `name: type` never equals the `class Config:`
marker: the rendered colon would have to sit at an index where the marker
has none. -/
theorem typed_line_ne_markerV1 (n t : String) :
    ("    " ++ n ++ ": " ++ t) ≠ cfgMarkerV1 := by
  intro h
  have h1 : ("    " ++ n ++ ": " ++ t).data =
      "    ".data ++ (n.data ++ ([':', ' '] ++ t.data)) := by
    simp only [String.data_append, List.append_assoc]
  have h2 : (cfgMarkerV1 : String).data = "    ".data ++ "class Config:".data := by decide
  have hc : n.data ++ ([':', ' '] ++ t.data) = "class Config:".data := by
    apply List.append_cancel_left
    rw [← h1, ← h2, h]
  have hlc := congrArg List.length hc
  rw [List.length_append, List.length_append] at hlc
  simp only [List.length_cons, List.length_nil] at hlc
  have hcolon : ("class Config:" : String).data[n.data.length]? = some ':' := by
    rw [← hc]
    rw [List.getElem?_append_right (Nat.le_refl _)]
    simp
  have hle : n.data.length ≤ 11 := by omega
  set k := n.data.length with hk
  interval_cases k <;> exact absurd hcolon (by decide)

/-- A typed field line contains a colon; the v2 marker has none. -/
theorem typed_line_ne_markerV2 (n t : String) :
    ("    " ++ n ++ ": " ++ t) ≠ cfgMarkerV2 := by
  apply ne_of_char_mem (c := ':')
  · exact char_mem_append_middle (a := "    " ++ n) (b := ": ") (c := t) (by decide)
  · decide

/-- Neither configuration marker appears among the generated import
lines. -/
theorem marker_not_mem_generate {it : ImportTracker} {M : String}
    (hM : M = cfgMarkerV2 ∨ M = cfgMarkerV1) : M ∉ generate it := by
  have h0 : M.data[0]? = some ' ' := by
    rcases hM with h | h <;> rw [h] <;> decide
  have h4 : M.data[4]? = some 'm' ∨ M.data[4]? = some 'c' := by
    rcases hM with h | h <;> rw [h]
    · exact Or.inl (by decide)
    · exact Or.inr (by decide)
  intro hmem
  unfold generate at hmem
  rcases List.mem_append.mp hmem with hmem | hmem
  · -- everything before the guarded model imports
    rcases List.mem_append.mp hmem with hmem | hmem
    · rcases List.mem_append.mp hmem with hmem | hmem
      · rcases List.mem_append.mp hmem with hmem | hmem
        · rcases List.mem_append.mp hmem with hmem | hmem
          · -- pydantic line
            split at hmem
            · cases hmem
            · rcases List.mem_singleton.mp hmem with rfl
              exact absurd h0 (by rw [index_append_left (by decide)]; decide)
          · -- typing line
            split at hmem
            · cases hmem
            · rcases List.mem_singleton.mp hmem with rfl
              exact absurd h0 (by rw [index_append_left (by decide)]; decide)
        · -- datetime line
          split at hmem
          · rcases List.mem_singleton.mp hmem with rfl
            exact absurd h0 (by decide)
          · cases hmem
      · -- enum lines
        split at hmem
        · cases hmem
        · rcases List.mem_map.mp hmem with ⟨nm, _, hline⟩
          subst hline
          exact absurd h0 (by
            rw [show ("from ..enums." ++ toSnakeCase nm ++ " import " ++ nm) =
              ("from ..enums." ++ (toSnakeCase nm ++ (" import " ++ nm))) from by
                simp [String.append_assoc]]
            rw [index_append_left (by decide)]
            decide)
    · -- blank line
      rcases List.mem_singleton.mp hmem with rfl
      exact absurd h0 (by decide)
  · -- guarded model imports
    split at hmem
    · cases hmem
    · rcases List.mem_cons.mp hmem with rfl | hmem
      · exact absurd h0 (by decide)
      · rcases List.mem_map.mp hmem with ⟨nm, _, hline⟩
        subst hline
        have h4' : ("    from ." ++ toSnakeCase nm ++ " import " ++ nm).data[4]? =
            some 'f' := by
          rw [show ("    from ." ++ toSnakeCase nm ++ " import " ++ nm) =
            ("    from ." ++ (toSnakeCase nm ++ (" import " ++ nm))) from by
              simp [String.append_assoc]]
          rw [index_append_left (by decide)]
          decide
        rcases h4 with h | h
        · rw [h4'] at h
          cases h
        · rw [h4'] at h
          cases h

/-- Every rendered data-field line takes one of five shapes. -/
theorem renderDataField_shapes (polyMap : List (String × String))
    (model : FormatStruct) (config : PydanticConfig) (f : FormatField) :
    (∃ j, renderDataField polyMap model config f =
      "    " ++ sanitizePythonIdentifier (toSnakeCase f.name) ++ ": Literal[" ++ j ++ "]") ∨
    renderDataField polyMap model config f =
      "    " ++ sanitizePythonIdentifier (toSnakeCase f.name) ++ ": str" ∨
    (∃ t, renderDataField polyMap model config f =
      "    " ++ sanitizePythonIdentifier (toSnakeCase f.name) ++ ": Optional[" ++ t ++
        "] = None") ∨
    (∃ t, renderDataField polyMap model config f =
      "    " ++ sanitizePythonIdentifier (toSnakeCase f.name) ++ ": " ++ t) ∨
    renderDataField polyMap model config f =
      "    " ++ sanitizePythonIdentifier (toSnakeCase f.name) ++ " = None" := by
  unfold renderDataField
  by_cases hh : config.addTypeHints = true
  · rw [if_pos hh]
    cases hl : lookupA polyMap f.name with
    | some nav =>
      dsimp only
      split
      · exact Or.inl ⟨_, rfl⟩
      · exact Or.inr (Or.inl rfl)
    | none =>
      dsimp only
      split
      · exact Or.inr (Or.inr (Or.inl ⟨_, rfl⟩))
      · exact Or.inr (Or.inr (Or.inr (Or.inl ⟨_, rfl⟩)))
  · rw [if_neg hh]
    exact Or.inr (Or.inr (Or.inr (Or.inr rfl)))

/-- No rendered data-field line is a configuration marker. -/
theorem renderDataField_ne_markers (polyMap : List (String × String))
    (model : FormatStruct) (config : PydanticConfig) (f : FormatField) :
    renderDataField polyMap model config f ≠ cfgMarkerV2 ∧
    renderDataField polyMap model config f ≠ cfgMarkerV1 := by
  rcases renderDataField_shapes polyMap model config f with
    ⟨j, hE⟩ | hE | ⟨t, hE⟩ | ⟨t, hE⟩ | hE <;> rw [hE]
  · constructor
    · apply ne_of_char_mem (c := ':')
      · simp only [String.data_append, List.mem_append]
        exact Or.inl (Or.inl (Or.inr (by decide)))
      · decide
    · apply ne_of_last
      rw [last_append _ "]" ']' (by decide)]
      decide
  · constructor
    · apply ne_of_char_mem (c := ':')
      · simp only [String.data_append, List.mem_append]
        exact Or.inr (by decide)
      · decide
    · apply ne_of_last
      rw [last_append _ ": str" 'r' (by decide)]
      decide
  · constructor
    · apply ne_of_last
      rw [last_append _ "] = None" 'e' (by decide)]
      decide
    · apply ne_of_last
      rw [last_append _ "] = None" 'e' (by decide)]
      decide
  · exact ⟨typed_line_ne_markerV2 _ _, typed_line_ne_markerV1 _ _⟩
  · constructor
    · apply ne_of_last
      rw [last_append _ " = None" 'e' (by decide)]
      decide
    · apply ne_of_last
      rw [last_append _ " = None" 'e' (by decide)]
      decide

/-- No rendered navigation-field line is a configuration marker. -/
theorem renderNavField_ne_markers (model : FormatStruct) (f : FormatField)
    {L : String} (h : renderNavField model f = some L) :
    L ≠ cfgMarkerV2 ∧ L ≠ cfgMarkerV1 := by
  unfold renderNavField at h
  dsimp only at h
  split at h
  · cases h
  · split at h
    · rcases Option.some.inj h with rfl
      constructor
      · apply ne_of_last
        rw [last_append _ "] = None" 'e' (by decide)]
        decide
      · apply ne_of_last
        rw [last_append _ "] = None" 'e' (by decide)]
        decide
    · split at h
      · rcases Option.some.inj h with rfl
        constructor
        · apply ne_of_last
          rw [last_append _ "] = None" 'e' (by decide)]
          decide
        · apply ne_of_last
          rw [last_append _ "] = None" 'e' (by decide)]
          decide
      · rcases Option.some.inj h with rfl
        constructor
        · apply ne_of_last
          rw [last_append _ "'] = None" 'e' (by decide)]
          decide
        · apply ne_of_last
          rw [last_append _ "'] = None" 'e' (by decide)]
          decide

/-- Without an enum-valued field no configuration marker appears in the
generated model content. -/
theorem marker_not_mem_model_lines {model : FormatStruct} {config : PydanticConfig}
    {mc : MorpheConfig} {r : Registry} {M : String}
    (hM : M = cfgMarkerV2 ∨ M = cfgMarkerV1)
    (hn : needsModelConfigOf model r = false) :
    M ∉ generateModelContentLines model config mc r := by
  have h0 : M.data[0]? = some ' ' := by
    rcases hM with h | h <;> rw [h] <;> decide
  have h4 : M.data[4]? = some 'm' ∨ M.data[4]? = some 'c' := by
    rcases hM with h | h <;> rw [h]
    · exact Or.inl (by decide)
    · exact Or.inr (by decide)
  intro hmem
  unfold generateModelContentLines at hmem
  rcases List.mem_append.mp hmem with hmem | hmem
  · rcases List.mem_append.mp hmem with hmem | hmem
    · rcases List.mem_append.mp hmem with hmem | hmem
      · rcases List.mem_append.mp hmem with hmem | hmem
        · exact marker_not_mem_generate hM hmem
        · rcases List.mem_singleton.mp hmem with rfl
          exact absurd h0 (by decide)
      · -- class header
        rcases List.mem_singleton.mp hmem with hcl
        have : M.data[0]? = some 'c' := by
          rw [hcl]
          rw [show ("class " ++ model.name ++ "(BaseModel):") =
            ("class " ++ (model.name ++ "(BaseModel):")) from by simp [String.append_assoc]]
          rw [index_append_left (by decide)]
          decide
        rw [h0] at this
        cases this
    · -- docstring
      rcases List.mem_singleton.mp hmem with hcl
      have hq : M.data[4]? = some '"' := by
        rw [hcl]
        rw [show ("    \"\"\"" ++ model.name ++ " model.\"\"\"") =
          ("    \"\"\"" ++ (model.name ++ " model.\"\"\"")) from by simp [String.append_assoc]]
        rw [index_append_left (by decide)]
        decide
      rcases h4 with h | h <;> rw [hq] at h <;> cases h
  · -- body
    split at hmem
    · rcases List.mem_singleton.mp hmem with rfl
      rcases hM with h | h <;> exact absurd h (by decide)
    · rcases List.mem_append.mp hmem with hmem | hmem
      · rcases List.mem_append.mp hmem with hmem | hmem
        · rcases List.mem_map.mp hmem with ⟨f, _, hline⟩
          have hne := renderDataField_ne_markers (polyMapOf model) model config f
          rcases hM with h | h
          · exact hne.1 (hline.trans h)
          · exact hne.2 (hline.trans h)
        · rcases List.mem_filterMap.mp hmem with ⟨f, _, hline⟩
          have hne := renderNavField_ne_markers model f hline
          rcases hM with h | h
          · exact hne.1 h
          · exact hne.2 h
      · rw [hn] at hmem
        have : configBlockLines config false = [] := by
          unfold configBlockLines
          rw [if_neg (by simp), if_neg (by simp)]
        rw [this] at hmem
        cases hmem

/-- Without pydantic v2 or without a non-basic field no configuration
marker appears in the generated structure content. -/
theorem marker_not_mem_structure_lines {s : FormatStruct} {config : PydanticConfig}
    {M : String} (hM : M = cfgMarkerV2 ∨ M = cfgMarkerV1)
    (hn : ¬ (config.pydanticV2 = true ∧ structureNeedsConfig s = true)) :
    M ∉ generateStructureContentLines s config := by
  have h0 : M.data[0]? = some ' ' := by
    rcases hM with h | h <;> rw [h] <;> decide
  have h4 : M.data[4]? = some 'm' ∨ M.data[4]? = some 'c' := by
    rcases hM with h | h <;> rw [h]
    · exact Or.inl (by decide)
    · exact Or.inr (by decide)
  intro hmem
  unfold generateStructureContentLines at hmem
  rcases List.mem_append.mp hmem with hmem | hmem
  · rcases List.mem_append.mp hmem with hmem | hmem
    · rcases List.mem_append.mp hmem with hmem | hmem
      · rcases List.mem_append.mp hmem with hmem | hmem
        · rcases List.mem_append.mp hmem with hmem | hmem
          · rcases List.mem_append.mp hmem with hmem | hmem
            · -- import line
              rcases List.mem_singleton.mp hmem with rfl
              split at h0 <;> exact absurd h0 (by decide)
            · -- typing / datetime lines
              split at hmem
              · rcases List.mem_append.mp hmem with hmem | hmem
                · rcases List.mem_singleton.mp hmem with rfl
                  exact absurd h0 (by rw [index_append_left (by decide)]; decide)
                · split at hmem
                  · rcases List.mem_singleton.mp hmem with rfl
                    exact absurd h0 (by decide)
                  · cases hmem
              · cases hmem
          · -- two blank lines
            rcases List.mem_cons.mp hmem with rfl | hmem
            · exact absurd h0 (by decide)
            · rcases List.mem_singleton.mp hmem with rfl
              exact absurd h0 (by decide)
        · -- class header
          rcases List.mem_singleton.mp hmem with hcl
          have : M.data[0]? = some 'c' := by
            rw [hcl]
            rw [show ("class " ++ s.name ++ "(BaseModel):") =
              ("class " ++ (s.name ++ "(BaseModel):")) from by simp [String.append_assoc]]
            rw [index_append_left (by decide)]
            decide
          rw [h0] at this
          cases this
      · -- docstring
        rcases List.mem_singleton.mp hmem with hcl
        have hq : M.data[4]? = some '"' := by
          rw [hcl]
          rw [show ("    \"\"\"" ++ s.name ++ " data transfer object.\"\"\"") =
            ("    \"\"\"" ++ (s.name ++ " data transfer object.\"\"\"")) from by
              simp [String.append_assoc]]
          rw [index_append_left (by decide)]
          decide
        rcases h4 with h | h <;> rw [hq] at h <;> cases h
    · -- field lines
      rcases List.mem_map.mp hmem with ⟨f, _, hline⟩
      rcases hM with h | h
      · exact typed_line_ne_markerV2 _ _ (hline.trans h)
      · exact typed_line_ne_markerV1 _ _ (hline.trans h)
  · -- configuration block
    split at hmem
    · rename_i hcond
      rw [Bool.and_eq_true] at hcond
      exact hn hcond
    · cases hmem

/-! ## Concrete schema instances used in the claim analyses -/

/-- The `Company` model of the repository's minimal test registry
(src/unnamed/part_001). -/
def companyModel : Model :=
  { name := "Company"
    fields := [("ID", "AutoIncrement"), ("Name", "String"), ("TaxID", "String")]
    related := [("Person", { relType := .hasMany })] }

/-- A minimal `Person` model for the registry. -/
def personModel : Model :=
  { name := "Person", fields := [("ID", "AutoIncrement")] }

/-- A registry holding `Company` and `Person`. -/
def companyRegistry : Registry :=
  { models := [("Company", companyModel), ("Person", personModel)] }

/-- The `ContactInfo` model of the repository's minimal test registry
(src/unnamed/part_000). -/
def contactInfoModel : Model :=
  { name := "ContactInfo"
    fields := [("ID", "AutoIncrement"), ("Email", "String")]
    related := [("Person", { relType := .forOne })] }

/-- A model whose own field sorts after the foreign-key field introduced by
its relation (used for the emission-order analysis). -/
def zebraAppleModel : Model :=
  { name := "Z"
    fields := [("Zebra", "String")]
    related := [("Apple", { relType := .forOne })] }

/-- A polymorphic relation carrying both a "for" list and an unresolvable
"through" reference. -/
def bothPolyModel : Model :=
  { name := "B"
    related := [("X", { relType := .hasOnePoly, forList := ["Q"], through := "R" })] }

/-- A polymorphic relation with an unresolvable "through" reference and no
"for" list. -/
def thruPolyModel : Model :=
  { name := "T"
    related := [("X", { relType := .hasManyPoly, through := "R" })] }

/-- Two models that each own a polymorphic relation named `R`. -/
def ownerAModel : Model :=
  { name := "A", related := [("R", { relType := .forOnePoly })] }

/-- See `ownerAModel`. -/
def ownerBModel : Model :=
  { name := "B", related := [("R", { relType := .forOnePoly })] }

/-- A model resolving its polymorphic relation through `R`. -/
def throughUserModel : Model :=
  { name := "M", related := [("X", { relType := .hasOnePoly, through := "R" })] }

/-- A model with a schema field whose raw name already ends in `_type`
(triggering the polymorphic-discriminator rendering branch). -/
def xTypeModel : Model :=
  { name := "Thing", fields := [("X_type", "String")] }

/-- A model with a ForOnePoly relation (the README's polymorphic example). -/
def commentModel : Model :=
  { name := "Comment"
    fields := [("Content", "String"), ("ID", "AutoIncrement")]
    related := [("Commentable", { relType := .forOnePoly, forList := ["Person", "Company"] })] }

/-- A compiled structure with one enum-valued field. -/
def enumStruct : FormatStruct :=
  { name := "S", fields := [⟨"Kind", .basic "Nationality"⟩] }

/-- A registry registering the `Nationality` enum. -/
def enumRegistry : Registry := { enums := ["Nationality"] }

/-- A registry whose map iteration happens to visit `A` before `B`. -/
def registryOrderAB : Registry :=
  { models := [("A", ownerAModel), ("B", ownerBModel), ("M", throughUserModel)] }

/-- The same registry (same key/value set) visited in the other order. -/
def registryOrderBA : Registry :=
  { models := [("B", ownerBModel), ("A", ownerAModel), ("M", throughUserModel)] }

/-! ## Claim C1 -/

set_option maxHeartbeats 2000000 in
/-- Claim C1 (amended): foreign-key-style fields are rendered with the
`None` default independent of `AddTypeHints` — without type hints every
data field is rendered `name = None`; with type hints every data field
whose sanitized snake-case name is longer than three characters and ends
in `_id`/`_type` is rendered `name: Optional[type] = None`, except a field
whose raw name already ends in `_type` with rendered type `str` (the
polymorphic-discriminator branch).  In particular, for every ForOnePoly
relation with a nonempty all-letter name the two contributed camel-cased
fields `<relation>_type`/`<relation>_id` are emitted, escape the
discriminator branch, and are both rendered with the `= None` default
under either setting. -/
theorem claim_c1 :
    (∀ (model : FormatStruct) (config : PydanticConfig) (mc : MorpheConfig)
       (r : Registry) (f : FormatField), f ∈ model.fields → isNavField f = false →
       config.addTypeHints = false →
       renderDataField (polyMapOf model) model config f =
         "    " ++ sanitizePythonIdentifier (toSnakeCase f.name) ++ " = None" ∧
       renderDataField (polyMapOf model) model config f ∈
         generateModelContentLines model config mc r) ∧
    (∀ (model : FormatStruct) (config : PydanticConfig) (mc : MorpheConfig)
       (r : Registry) (f : FormatField), f ∈ model.fields → isNavField f = false →
       config.addTypeHints = true →
       (∀ g ∈ model.fields, g.name = f.name →
         (strEnds g.name "_type" && g.type.getName == "str") = false) →
       3 < (sanitizePythonIdentifier (toSnakeCase f.name)).data.length →
       (strEnds (sanitizePythonIdentifier (toSnakeCase f.name)) "_id" = true ∨
        strEnds (sanitizePythonIdentifier (toSnakeCase f.name)) "_type" = true) →
       renderDataField (polyMapOf model) model config f =
         "    " ++ sanitizePythonIdentifier (toSnakeCase f.name) ++ ": Optional[" ++
           f.type.getName ++ "] = None" ∧
       renderDataField (polyMapOf model) model config f ∈
         generateModelContentLines model config mc r) ∧
    (∀ (m : Model) (r : Registry) (relName : String) (rel : Relation)
       (config : PydanticConfig) (mc : MorpheConfig),
       (relName, rel) ∈ m.related → (m.related.map Prod.fst).Nodup →
       rel.relType = RelationType.forOnePoly → relName ≠ "" →
       (∀ c ∈ relName.data, c.isAlpha = true) →
       (⟨toCamelCase (relName ++ "_type"), FormatType.basic "str"⟩ : FormatField) ∈
         (compileModel m r).fields ∧
       (⟨toCamelCase (relName ++ "_id"), FormatType.basic "str"⟩ : FormatField) ∈
         (compileModel m r).fields ∧
       strEnds (renderDataField (polyMapOf (compileModel m r)) (compileModel m r) config
         ⟨toCamelCase (relName ++ "_type"), FormatType.basic "str"⟩) " = None" = true ∧
       strEnds (renderDataField (polyMapOf (compileModel m r)) (compileModel m r) config
         ⟨toCamelCase (relName ++ "_id"), FormatType.basic "str"⟩) " = None" = true ∧
       renderDataField (polyMapOf (compileModel m r)) (compileModel m r) config
         ⟨toCamelCase (relName ++ "_type"), FormatType.basic "str"⟩ ∈
         generateModelContentLines (compileModel m r) config mc r ∧
       renderDataField (polyMapOf (compileModel m r)) (compileModel m r) config
         ⟨toCamelCase (relName ++ "_id"), FormatType.basic "str"⟩ ∈
         generateModelContentLines (compileModel m r) config mc r) := by
  refine ⟨?_, ?_, ?_⟩
  · intro model config mc r f hf hnav hhints
    refine ⟨renderDataField_nohints hhints, dataLine_mem hf hnav⟩
  · intro model config mc r f hf hnav hhints hnp hlen hsuf
    exact ⟨renderDataField_fk hhints (polyMapOf_lookup_none hnp) hlen hsuf,
      dataLine_mem hf hnav⟩
  · intro m r relName rel config mc hmem hnodup hrt hne halpha
    have hmemT : (⟨toCamelCase (relName ++ "_type"), FormatType.basic "str"⟩ : FormatField) ∈
        (compileModel m r).fields ∧
        (⟨toCamelCase (relName ++ "_id"), FormatType.basic "str"⟩ : FormatField) ∈
        (compileModel m r).fields := by
      rw [compileModel_fields]
      have hfk : (⟨toCamelCase (relName ++ "_type"), FormatType.basic "str"⟩ : FormatField) ∈
          fkFieldsOfRelation relName rel ∧
          (⟨toCamelCase (relName ++ "_id"), FormatType.basic "str"⟩ : FormatField) ∈
          fkFieldsOfRelation relName rel := by
        simp [fkFieldsOfRelation, hrt, isRelationPoly, isRelationFor, isRelationOne]
      have hsorted : relName ∈ List.insertionSort (fun a b => strLe a b = true)
          (m.related.map Prod.fst) :=
        (mem_insertionSort _).mpr (List.mem_map.mpr ⟨(relName, rel), hmem, rfl⟩)
      have hin : ∀ fld : FormatField, fld ∈ fkFieldsOfRelation relName rel →
          fld ∈ (List.insertionSort (fun a b => strLe a b = true)
            (m.related.map Prod.fst)).flatMap
            (fun n => match lookupA m.related n with
              | some rel => fkFieldsOfRelation n rel
              | none => []) := by
        intro fld hfld
        refine List.mem_flatMap.mpr ⟨relName, hsorted, ?_⟩
        rw [lookupA_eq_some_of_nodup hnodup hmem]
        exact hfld
      constructor
      · exact List.mem_append.mpr (Or.inl (List.mem_append.mpr (Or.inr (hin _ hfk.1))))
      · exact List.mem_append.mpr (Or.inl (List.mem_append.mpr (Or.inr (hin _ hfk.2))))
    have hnavT : isNavField (⟨toCamelCase (relName ++ "_type"), FormatType.basic "str"⟩ :
        FormatField) = false := camel_not_nav
    have hnavI : isNavField (⟨toCamelCase (relName ++ "_id"), FormatType.basic "str"⟩ :
        FormatField) = false := camel_not_nav
    have hrender : ∀ suffix : String,
        (∀ (hn : String), hn = toCamelCase (relName ++ suffix) →
          strEnds hn "_type" = false) →
        sanitizePythonIdentifier (toSnakeCase (toCamelCase (relName ++ suffix))) =
          toSnakeCase (toCamelCase (relName ++ suffix)) →
        3 < (sanitizePythonIdentifier
          (toSnakeCase (toCamelCase (relName ++ suffix)))).data.length →
        (strEnds (sanitizePythonIdentifier
            (toSnakeCase (toCamelCase (relName ++ suffix)))) "_id" = true ∨
         strEnds (sanitizePythonIdentifier
            (toSnakeCase (toCamelCase (relName ++ suffix)))) "_type" = true) →
        strEnds (renderDataField (polyMapOf (compileModel m r)) (compileModel m r) config
          ⟨toCamelCase (relName ++ suffix), FormatType.basic "str"⟩) " = None" = true := by
      intro suffix hnotype _ hlen hsuf
      by_cases hhints : config.addTypeHints = true
      · have hnone : lookupA (polyMapOf (compileModel m r))
            (toCamelCase (relName ++ suffix)) = none := by
          apply polyMapOf_lookup_none
          intro g _ hgname
          rw [hgname, hnotype _ rfl]
          rfl
        rw [renderDataField_fk hhints hnone hlen hsuf]
        rw [show ("    " ++ sanitizePythonIdentifier (toSnakeCase
            (toCamelCase (relName ++ suffix))) ++ ": Optional[" ++
            (FormatType.basic "str").getName ++ "] = None") =
          (("    " ++ sanitizePythonIdentifier (toSnakeCase
            (toCamelCase (relName ++ suffix))) ++ ": Optional[" ++
            (FormatType.basic "str").getName) ++ "] = None") from rfl]
        exact strEnds_append_of_suffix (by decide)
      · have hhf : config.addTypeHints = false := Bool.eq_false_iff.mpr hhints
        rw [renderDataField_nohints hhf]
        exact strEnds_append _ _
    rcases fk_type_name_props hne halpha with ⟨hsanT, hlenT, hsufT⟩
    rcases fk_id_name_props hne halpha with ⟨hsanI, hlenI, hsufI⟩
    refine ⟨hmemT.1, hmemT.2, ?_, ?_, dataLine_mem hmemT.1 hnavT, dataLine_mem hmemT.2 hnavI⟩
    · exact hrender "_type" (fun hn hhn => hhn ▸ camel_not_type_suffix) hsanT hlenT
        (Or.inr hsufT)
    · exact hrender "_id" (fun hn hhn => hhn ▸ camel_not_type_suffix) hsanI hlenI
        (Or.inl hsufI)

/-- Claim C1, counterexample: a schema data field raw-named `X_type` of
string type satisfies the claim's premise (its rendered name `x_type` ends
in `_type`) but is rendered by the discriminator branch as plain
`x_type: str` with no default when type hints are on. -/
theorem claim_c1_counterexample :
    sanitizePythonIdentifier (toSnakeCase "X_type") = "x_type" ∧
    strEnds "x_type" "_type" = true ∧
    renderDataField (polyMapOf (compileModel xTypeModel { }))
        (compileModel xTypeModel { }) { } ⟨"X_type", FormatType.basic "str"⟩ =
      "    x_type: str" ∧
    "    x_type: str" ∈ generateModelContentLines (compileModel xTypeModel { }) { } { } { } ∧
    strEnds "    x_type: str" " = None" = false := by
  refine ⟨by decide, by decide, by decide, by decide, by decide⟩

/-- Claim C1, witness: the three amended statements at concrete inputs —
a plain field without hints, the `PersonId` foreign key with hints, and
the `Commentable` ForOnePoly relation of the polymorphic example model. -/
theorem claim_c1_witness :
    (renderDataField (polyMapOf (compileModel companyModel companyRegistry))
        (compileModel companyModel companyRegistry) { addTypeHints := false }
        ⟨"Name", FormatType.basic "str"⟩ =
      "    " ++ sanitizePythonIdentifier (toSnakeCase "Name") ++ " = None" ∧
     renderDataField (polyMapOf (compileModel companyModel companyRegistry))
        (compileModel companyModel companyRegistry) { addTypeHints := false }
        ⟨"Name", FormatType.basic "str"⟩ ∈
      generateModelContentLines (compileModel companyModel companyRegistry)
        { addTypeHints := false } { } companyRegistry) ∧
    (renderDataField (polyMapOf (compileModel contactInfoModel companyRegistry))
        (compileModel contactInfoModel companyRegistry) { }
        ⟨toCamelCase ("Person" ++ "_id"), FormatType.basic "str"⟩ =
      "    " ++ sanitizePythonIdentifier (toSnakeCase
        (toCamelCase ("Person" ++ "_id"))) ++ ": Optional[" ++
        (FormatType.basic "str").getName ++ "] = None" ∧
     renderDataField (polyMapOf (compileModel contactInfoModel companyRegistry))
        (compileModel contactInfoModel companyRegistry) { }
        ⟨toCamelCase ("Person" ++ "_id"), FormatType.basic "str"⟩ ∈
      generateModelContentLines (compileModel contactInfoModel companyRegistry)
        { } { } companyRegistry) ∧
    (strEnds (renderDataField (polyMapOf (compileModel commentModel companyRegistry))
        (compileModel commentModel companyRegistry) { }
        ⟨toCamelCase ("Commentable" ++ "_type"), FormatType.basic "str"⟩) " = None" = true ∧
     strEnds (renderDataField (polyMapOf (compileModel commentModel companyRegistry))
        (compileModel commentModel companyRegistry) { }
        ⟨toCamelCase ("Commentable" ++ "_id"), FormatType.basic "str"⟩) " = None" = true) := by
  refine ⟨claim_c1.1 _ _ { } companyRegistry _ (by decide) (by decide) rfl, ?_, ?_⟩
  · exact claim_c1.2.1 _ _ { } companyRegistry _ (by decide) (by decide) rfl (by decide)
      (by decide) (Or.inl (by decide))
  · have h := claim_c1.2.2 commentModel companyRegistry "Commentable"
      { relType := .forOnePoly, forList := ["Person", "Company"] } { } { }
      (by decide) (by decide) rfl (by decide) (by decide)
    exact ⟨h.2.2.1, h.2.2.2.1⟩

/-! ## Claim C10 -/

/-- Claim C10 (amended): with `AddTypeHints` enabled, any data field whose
sanitized snake-case name is longer than three characters and ends in
`_id` or `_type` is rendered optional-with-default — even a schema field
like `TaxID` that is not a foreign key — unless the field's raw name
already ends in `_type` with rendered type `str`, in which case the
polymorphic-discriminator branch renders it without a default. -/
theorem claim_c10 (model : FormatStruct) (config : PydanticConfig)
    (mc : MorpheConfig) (r : Registry) (f : FormatField)
    (hf : f ∈ model.fields) (hnav : isNavField f = false)
    (hhints : config.addTypeHints = true)
    (hnp : ∀ g ∈ model.fields, g.name = f.name →
      (strEnds g.name "_type" && g.type.getName == "str") = false)
    (hlen : 3 < (sanitizePythonIdentifier (toSnakeCase f.name)).data.length)
    (hsuf : strEnds (sanitizePythonIdentifier (toSnakeCase f.name)) "_id" = true ∨
            strEnds (sanitizePythonIdentifier (toSnakeCase f.name)) "_type" = true) :
    renderDataField (polyMapOf model) model config f =
      "    " ++ sanitizePythonIdentifier (toSnakeCase f.name) ++ ": Optional[" ++
        f.type.getName ++ "] = None" ∧
    renderDataField (polyMapOf model) model config f ∈
      generateModelContentLines model config mc r :=
  ⟨renderDataField_fk hhints (polyMapOf_lookup_none hnp) hlen hsuf,
   dataLine_mem hf hnav⟩

/-- Claim C10, witness: the schema field `TaxID` of `Company` is rendered
`tax_id: Optional[str] = None` although it is not a foreign key. -/
theorem claim_c10_witness :
    renderDataField (polyMapOf (compileModel companyModel companyRegistry))
        (compileModel companyModel companyRegistry) { } ⟨"TaxID", FormatType.basic "str"⟩ =
      "    tax_id: Optional[str] = None" ∧
    renderDataField (polyMapOf (compileModel companyModel companyRegistry))
        (compileModel companyModel companyRegistry) { } ⟨"TaxID", FormatType.basic "str"⟩ ∈
      generateModelContentLines (compileModel companyModel companyRegistry) { } { }
        companyRegistry :=
  claim_c10 _ _ { } companyRegistry _ (by decide) (by decide) rfl (by decide) (by decide)
    (Or.inl (by decide))

/-- Claim C10, counterexample: the schema field `X_type` of string type has
a sanitized snake-case name `x_type` that is longer than three characters
and ends in `_type`, yet it is rendered as plain `x_type: str` (no
`Optional`, no default) because the polymorphic-discriminator branch fires
first. -/
theorem claim_c10_counterexample :
    sanitizePythonIdentifier (toSnakeCase "X_type") = "x_type" ∧
    3 < ("x_type" : String).data.length ∧
    strEnds "x_type" "_type" = true ∧
    renderDataField (polyMapOf (compileModel xTypeModel { }))
        (compileModel xTypeModel { }) { } ⟨"X_type", FormatType.basic "str"⟩ =
      "    x_type: str" ∧
    "    x_type: Optional[str] = None" ∉
      generateModelContentLines (compileModel xTypeModel { }) { } { } { } ∧
    "    x_type: str" ∈ generateModelContentLines (compileModel xTypeModel { }) { } { } { } := by
  refine ⟨by decide, by decide, by decide, by decide, by decide, by decide⟩

/-! ## Claim C2 -/

/-- Claim C2, counterexample: for the `Company` definition, the single
navigation field renders as `person`, not `persons` as the claim states —
no emitted line mentions `persons` at all. -/
theorem claim_c2_counterexample :
    (((compileModel companyModel companyRegistry).fields.filter
        (fun f => isNavField f)).map
      (fun f => sanitizePythonIdentifier (toSnakeCase (trimPre f.name "_nav_"))) =
        ["person"]) ∧
    ((generateModelContentLines (compileModel companyModel companyRegistry) {} {}
        companyRegistry).all (fun l => !(strHas l "persons"))) = true := by
  decide

/-- Claim C2 (amended): the `Company` definition compiles to a declaration
with exactly three data fields `id`, `name`, `tax_id` (in that order), one
navigation field named `person` typed as an optional array of references
to `Person`, and no foreign-key field contributed by the `HasMany`
relation. -/
theorem claim_c2 :
    generateModelContentLines (compileModel companyModel companyRegistry) {} {}
        companyRegistry =
      ["from pydantic import BaseModel",
       "from typing import List, Optional, TYPE_CHECKING",
       "",
       "if TYPE_CHECKING:",
       "    from .person import Person",
       "",
       "class Company(BaseModel):",
       "    \"\"\"Company model.\"\"\"",
       "    id: int",
       "    name: str",
       "    tax_id: Optional[str] = None",
       "    person: Optional[List[Person]] = None"] := by
  decide

/-! ## Claim C3 -/

/-- Claim C3, counterexample: a polymorphic relation with a non-empty but
unresolvable "through" reference does NOT degrade to the Any type when it
also carries a "for" list — the union type wins. -/
theorem claim_c3_counterexample :
    isRelationPoly RelationType.hasOnePoly = true ∧
    bothPolyModel.related = [("X", { relType := .hasOnePoly, forList := ["Q"], through := "R" })] ∧
    resolvePolymorphicThrough "R" { } = none ∧
    (compileModel bothPolyModel { }).fields =
      [⟨"_nav_X", FormatType.basic "Union['Q']"⟩] ∧
    FormatType.basic "Union['Q']" ≠ typeAny := by
  refine ⟨rfl, rfl, rfl, ?_, by decide⟩
  decide

/-- Claim C3 (amended): for every polymorphic relation with a non-empty
"through" reference and an empty "for" list, if no model in the registry
has a polymorphic relation named like the "through" value, compilation
does not fail (the embedding of `CompileModel` is total) and the relation's
navigation field carries the universal Any type, wrapped in an array if
the cardinality is many. -/
theorem claim_c3 (m : Model) (r : Registry) (relName : String) (rel : Relation)
    (hmem : (relName, rel) ∈ m.related)
    (hnodup : (m.related.map Prod.fst).Nodup)
    (hpoly : isRelationPoly rel.relType = true)
    (hthrough : rel.through ≠ "")
    (hfor : rel.forList = [])
    (hunres : ∀ p ∈ r.models, ∀ q ∈ p.2.related, q.1 = rel.through →
      isRelationPoly q.2.relType = false) :
    (⟨"_nav_" ++ relName,
      if isRelationMany rel.relType then FormatType.array typeAny else typeAny⟩ : FormatField)
      ∈ (compileModel m r).fields := by
  have hnav : navFieldOfRelation relName rel r =
      ⟨"_nav_" ++ relName,
        if isRelationMany rel.relType then FormatType.array typeAny else typeAny⟩ := by
    unfold navFieldOfRelation
    simp [hpoly, hfor, hthrough, resolvePolymorphicThrough_eq_none hunres]
  rw [compileModel_fields]
  refine List.mem_append.mpr (Or.inr ?_)
  refine List.mem_filterMap.mpr ⟨relName, ?_, ?_⟩
  · exact (mem_insertionSort _).mpr (List.mem_map.mpr ⟨(relName, rel), hmem, rfl⟩)
  · rw [lookupA_eq_some_of_nodup hnodup hmem, Option.map_some', hnav]

/-- Claim C3, witness: the amended theorem applied to a concrete
has-many-poly relation whose "through" target is missing from the
registry. -/
theorem claim_c3_witness :
    (⟨"_nav_X",
      if isRelationMany RelationType.hasManyPoly then FormatType.array typeAny else typeAny⟩ :
        FormatField) ∈ (compileModel thruPolyModel { }).fields :=
  claim_c3 thruPolyModel { } "X" { relType := .hasManyPoly, through := "R" }
    (List.mem_singleton.mpr rfl) (by decide) rfl (by decide) rfl
    (fun p hp => by cases hp)

/-! ## Claim C4 -/

/-- Claim C4: the foreign-key contribution of each relation kind, verified
on a model holding that one relation: plain `ForOne` contributes exactly
one string-typed `<relation>_id` field (camel-cased at the intermediate
layer, snake-cased on rendering), `ForOnePoly` contributes exactly the
string-typed `<relation>_type` and `<relation>_id` pair, and every other
kind contributes no foreign-key field; the relation additionally
contributes exactly one navigation field. -/
theorem claim_c4 (m : Model) (r : Registry) (n : String) (rel : Relation)
    (h : m.related = [(n, rel)]) :
    ∃ nav : FormatField, nav.name = "_nav_" ++ n ∧
      (compileModel m r).fields =
        (compileModel { m with related := [] } r).fields ++
        (match rel.relType with
         | .forOne => [⟨toCamelCase (n ++ "_id"), FormatType.basic "str"⟩]
         | .forOnePoly => [⟨toCamelCase (n ++ "_type"), FormatType.basic "str"⟩,
                           ⟨toCamelCase (n ++ "_id"), FormatType.basic "str"⟩]
         | _ => []) ++
        [nav] := by
  refine ⟨navFieldOfRelation n rel r, rfl, ?_⟩
  have hfk : fkFieldsOfRelation n rel =
      (match rel.relType with
       | .forOne => [⟨toCamelCase (n ++ "_id"), FormatType.basic "str"⟩]
       | .forOnePoly => [⟨toCamelCase (n ++ "_type"), FormatType.basic "str"⟩,
                         ⟨toCamelCase (n ++ "_id"), FormatType.basic "str"⟩]
       | _ => []) := by
    obtain ⟨rt, al, fl, th⟩ := rel
    cases rt <;> rfl
  simp only [compileModel, h]
  simp [List.insertionSort, List.orderedInsert, lookupA, List.find?, hfk]

/-- Claim C4, witness: the `ContactInfo` definition of the test registry
(one plain `ForOne` relation to `Person`): its compiled fields are the two
data fields plus the single foreign-key field `PersonId` plus one
navigation field. -/
theorem claim_c4_witness :
    ∃ nav : FormatField, nav.name = "_nav_" ++ "Person" ∧
      (compileModel contactInfoModel companyRegistry).fields =
        (compileModel { contactInfoModel with related := [] } companyRegistry).fields ++
        [⟨toCamelCase ("Person" ++ "_id"), FormatType.basic "str"⟩] ++
        [nav] :=
  claim_c4 contactInfoModel companyRegistry "Person" { relType := .forOne } rfl

/-! ## Claim C5 -/

/-- Claim C5, counterexample: data fields are NOT emitted in alphabetical
order: the model's own field `Zebra` is emitted before the relation's
foreign-key field `AppleId` (rendered `zebra` before `apple_id`), because
own fields and foreign-key fields are sorted within their own groups only. -/
theorem claim_c5_counterexample :
    (((compileModel zebraAppleModel { }).fields.filter
        (fun f => !(isNavField f))).map (fun f => f.name) = ["Zebra", "AppleId"]) ∧
    ¬ List.Sorted (fun a b => strLe a b = true) ["Zebra", "AppleId"] ∧
    ¬ List.Sorted (fun a b => strLe a b = true)
        (["Zebra", "AppleId"].map (fun s => sanitizePythonIdentifier (toSnakeCase s))) := by
  refine ⟨by decide, by decide, by decide⟩

/-- Claim C5 (amended): the compiled field list decomposes into the model's
own data fields in alphabetical order, then the foreign-key fields grouped
by relation in alphabetical relation order, then the navigation fields in
alphabetical relation order; all non-navigation fields precede all
navigation fields. -/
theorem claim_c5 (m : Model) (r : Registry)
    (hnav : ∀ p ∈ m.fields, strStarts p.1 "_nav_" = false)
    (_hndf : (m.fields.map Prod.fst).Nodup)
    (_hndr : (m.related.map Prod.fst).Nodup) :
    ∃ dataF fkF navF : List FormatField,
      (compileModel m r).fields = dataF ++ fkF ++ navF ∧
      dataF.map FormatField.name =
        List.insertionSort (fun a b => strLe a b = true) (m.fields.map Prod.fst) ∧
      List.Sorted (fun a b => strLe a b = true) (dataF.map FormatField.name) ∧
      fkF = (List.insertionSort (fun a b => strLe a b = true)
          (m.related.map Prod.fst)).flatMap
        (fun n => match lookupA m.related n with
          | some rel => fkFieldsOfRelation n rel
          | none => []) ∧
      navF.map FormatField.name =
        (List.insertionSort (fun a b => strLe a b = true) (m.related.map Prod.fst)).map
          (fun n => "_nav_" ++ n) ∧
      List.Sorted (fun a b => strLe a b = true)
        (List.insertionSort (fun a b => strLe a b = true) (m.related.map Prod.fst)) ∧
      (∀ f ∈ dataF, isNavField f = false) ∧
      (∀ f ∈ fkF, isNavField f = false) ∧
      (∀ f ∈ navF, isNavField f = true) := by
  have hlookF : ∀ n ∈ List.insertionSort (fun a b => strLe a b = true) (m.fields.map Prod.fst),
      ∃ v, lookupA m.fields n = some v := by
    intro n hn
    exact lookupA_isSome_of_mem_keys ((mem_insertionSort _).mp hn)
  have hlookR : ∀ n ∈ List.insertionSort (fun a b => strLe a b = true) (m.related.map Prod.fst),
      ∃ v, lookupA m.related n = some v := by
    intro n hn
    exact lookupA_isSome_of_mem_keys ((mem_insertionSort _).mp hn)
  refine ⟨_, _, _, compileModel_fields m r, map_name_filterMap_lookup hlookF, ?_, rfl,
    map_name_filterMap_nav hlookR, List.sorted_insertionSort _ _, ?_, ?_, ?_⟩
  · rw [map_name_filterMap_lookup hlookF]
    exact List.sorted_insertionSort _ _
  · intro f hf
    rcases List.mem_filterMap.mp hf with ⟨n, hn, hsome⟩
    rcases Option.map_eq_some'.mp hsome with ⟨t, _, hft⟩
    have hnmem : n ∈ m.fields.map Prod.fst := (mem_insertionSort _).mp hn
    rcases List.mem_map.mp hnmem with ⟨p, hp, hp1⟩
    have := hnav p hp
    rw [← hft]
    simpa [isNavField, hp1] using this
  · intro f hf
    rcases List.mem_flatMap.mp hf with ⟨n, _, hfin⟩
    have hcamel : ∀ s : String, f = (⟨toCamelCase s, FormatType.basic "str"⟩ : FormatField) →
        isNavField f = false := by
      intro s hfs
      rw [hfs]
      exact camel_not_nav
    rcases hl : lookupA m.related n with _ | rel
    · rw [hl] at hfin
      cases hfin
    · rw [hl] at hfin
      simp only [fkFieldsOfRelation] at hfin
      split at hfin
      · rcases List.mem_cons.mp hfin with h | h
        · exact hcamel _ h
        · rcases List.mem_singleton.mp h with h
          exact hcamel _ h
      · split at hfin
        · cases hfin
        · split at hfin
          · rcases List.mem_singleton.mp hfin with h
            exact hcamel _ h
          · cases hfin
  · intro f hf
    rcases List.mem_filterMap.mp hf with ⟨n, _, hsome⟩
    rcases Option.map_eq_some'.mp hsome with ⟨rel, _, hft⟩
    rw [← hft]
    simp [isNavField, navFieldOfRelation, strStarts]

/-- Claim C5, witness: the amended decomposition at the `Company`
definition. -/
theorem claim_c5_witness :
    ∃ dataF fkF navF : List FormatField,
      (compileModel companyModel companyRegistry).fields = dataF ++ fkF ++ navF ∧
      dataF.map FormatField.name =
        List.insertionSort (fun a b => strLe a b = true) (companyModel.fields.map Prod.fst) ∧
      List.Sorted (fun a b => strLe a b = true) (dataF.map FormatField.name) ∧
      fkF = (List.insertionSort (fun a b => strLe a b = true)
          (companyModel.related.map Prod.fst)).flatMap
        (fun n => match lookupA companyModel.related n with
          | some rel => fkFieldsOfRelation n rel
          | none => []) ∧
      navF.map FormatField.name =
        (List.insertionSort (fun a b => strLe a b = true)
          (companyModel.related.map Prod.fst)).map (fun n => "_nav_" ++ n) ∧
      List.Sorted (fun a b => strLe a b = true)
        (List.insertionSort (fun a b => strLe a b = true)
          (companyModel.related.map Prod.fst)) ∧
      (∀ f ∈ dataF, isNavField f = false) ∧
      (∀ f ∈ fkF, isNavField f = false) ∧
      (∀ f ∈ navF, isNavField f = true) :=
  claim_c5 companyModel companyRegistry (by decide) (by decide) (by decide)

/-! ## Claim C8 -/

/-- Claim C8: the import tracker is idempotent — `TrackFieldType` applied
twice on the same type expression equals one application, and `AddPydantic`
and `AddTyping` never add a duplicate entry for an import already
present (adding an already-present import leaves the state unchanged). -/
theorem claim_c8 :
    (∀ (it : ImportTracker) (t : String),
      trackFieldType (trackFieldType it t) t = trackFieldType it t) ∧
    (∀ (it : ImportTracker) (i : String), i ∈ it.pydantic → addPydantic it [i] = it) ∧
    (∀ (it : ImportTracker) (i : String), i ∈ it.typing → addTyping it [i] = it) :=
  ⟨fun it t => trackFieldType_of_saturated (trackFieldType_saturates it t),
   fun _ _ h => addPydantic_of_mem h,
   fun _ _ h => addTyping_of_mem h⟩

/-- Claim C8, witness: idempotence at a concrete tracker and type
expression, and no-op re-addition of already-present imports. -/
theorem claim_c8_witness :
    trackFieldType (trackFieldType (newImportTracker { }) "List[Person]") "List[Person]" =
        trackFieldType (newImportTracker { }) "List[Person]" ∧
    addPydantic (addPydantic (newImportTracker { }) ["BaseModel"]) ["BaseModel"] =
        addPydantic (newImportTracker { }) ["BaseModel"] ∧
    addTyping (addTyping (newImportTracker { }) ["Optional"]) ["Optional"] =
        addTyping (newImportTracker { }) ["Optional"] :=
  ⟨claim_c8.1 _ _, claim_c8.2.1 _ _ (by decide), claim_c8.2.2 _ _ (by decide)⟩

/-! ## Claim C9 -/

/-- Permutations have equal emptiness. -/
theorem perm_isEmpty {l₁ l₂ : List String} (h : l₁.Perm l₂) :
    l₁.isEmpty = l₂.isEmpty := by
  cases l₁ with
  | nil =>
    rw [List.Perm.eq_nil h.symm]
  | cons a as =>
    cases l₂ with
    | nil =>
      exact absurd (List.Perm.eq_nil h) (by simp)
    | cons b bs => rfl

/-- Sorting is invariant under permutation of the input. -/
theorem sortStrings_perm_eq {l₁ l₂ : List String} (h : l₁.Perm l₂) :
    sortStrings l₁ = sortStrings l₂ :=
  List.eq_of_perm_of_sorted
    ((List.perm_insertionSort _ l₁).trans (h.trans (List.perm_insertionSort _ l₂).symm))
    (List.sorted_insertionSort _ _) (List.sorted_insertionSort _ _)

/-- Claim C9: `Generate` renders the import section in the fixed order —
pydantic base import line, typing imports sorted alphabetically on one
line, the datetime import, one enum import line per enum sorted
alphabetically, a blank line, then the TYPE_CHECKING-guarded model imports
sorted alphabetically — and the rendered text is invariant under
permutation of the discovery order of the typing/enum/model sets. -/
theorem claim_c9 :
    (∀ it₁ it₂ : ImportTracker,
      it₁.pydantic = it₂.pydantic → it₁.typing.Perm it₂.typing →
      it₁.datetime = it₂.datetime → it₁.enums.Perm it₂.enums →
      it₁.models.Perm it₂.models → generate it₁ = generate it₂) ∧
    (∀ it : ImportTracker,
      ∃ ts es ms : List String,
        ts.Perm it.typing ∧ List.Sorted (fun a b => strLe a b = true) ts ∧
        es.Perm it.enums ∧ List.Sorted (fun a b => strLe a b = true) es ∧
        ms.Perm it.models ∧ List.Sorted (fun a b => strLe a b = true) ms ∧
        generate it =
          (if it.pydantic.isEmpty then []
           else ["from pydantic import " ++ String.intercalate ", " it.pydantic]) ++
          (if it.typing.isEmpty then []
           else ["from typing import " ++ String.intercalate ", " ts]) ++
          (if it.datetime then ["from datetime import datetime"] else []) ++
          (if it.enums.isEmpty then []
           else es.map (fun n => "from ..enums." ++ toSnakeCase n ++ " import " ++ n)) ++
          [""] ++
          (if it.models.isEmpty then []
           else "if TYPE_CHECKING:" ::
             ms.map (fun n => "    from ." ++ toSnakeCase n ++ " import " ++ n))) := by
  constructor
  · intro it₁ it₂ hp ht hd he hm
    unfold generate
    rw [hp, hd, sortStrings_perm_eq ht, sortStrings_perm_eq he, sortStrings_perm_eq hm,
      perm_isEmpty ht, perm_isEmpty he, perm_isEmpty hm]
  · intro it
    exact ⟨sortStrings it.typing, sortStrings it.enums, sortStrings it.models,
      List.perm_insertionSort _ _, List.sorted_insertionSort _ _,
      List.perm_insertionSort _ _, List.sorted_insertionSort _ _,
      List.perm_insertionSort _ _, List.sorted_insertionSort _ _, rfl⟩

/-- Claim C9, witness: two trackers that discovered the same imports in
different orders render identical import sections. -/
theorem claim_c9_witness :
    generate { pydantic := ["BaseModel"], typing := ["Optional", "List"],
               datetime := true, enums := ["Color", "Breed"], models := ["Person"],
               registry := { } } =
      generate { pydantic := ["BaseModel"], typing := ["List", "Optional"],
                 datetime := true, enums := ["Breed", "Color"], models := ["Person"],
                 registry := { } } :=
  claim_c9.1 _ _ rfl (by decide) rfl (by decide) (by decide)

/-! ## Claim C6 -/

/-- Claim C6 (amended): for models the configuration block (v2
`model_config` or v1 `class Config`) is present exactly when some emitted
data field references a Definition resolved as an enum.  For structures
the block is present exactly when Pydantic v2 is enabled and some field
has a non-basic bracket-free type name; in particular, with Pydantic v2
disabled a structure never emits the block even when an enum-valued field
is present. -/
theorem claim_c6 :
    (∀ (model : FormatStruct) (config : PydanticConfig) (mc : MorpheConfig) (r : Registry),
      hasConfigBlock (generateModelContentLines model config mc r) ↔
        ∃ f ∈ model.fields, isNavField f = false ∧ isEnumField f r = true) ∧
    (∀ (s : FormatStruct) (config : PydanticConfig),
      hasConfigBlock (generateStructureContentLines s config) ↔
        (config.pydanticV2 = true ∧ structureNeedsConfig s = true)) := by
  constructor
  · intro model config mc r
    constructor
    · intro h
      by_cases hn : needsModelConfigOf model r = true
      · rcases List.any_eq_true.mp hn with ⟨f, hf, hef⟩
        have hfm := List.mem_filter.mp hf
        refine ⟨f, hfm.1, ?_, hef⟩
        have := hfm.2
        rwa [Bool.not_eq_true'] at this
      · exfalso
        have hn' : needsModelConfigOf model r = false := Bool.eq_false_iff.mpr hn
        rcases h with h | h
        · exact marker_not_mem_model_lines (Or.inl rfl) hn' h
        · exact marker_not_mem_model_lines (Or.inr rfl) hn' h
    · rintro ⟨f, hf, hnav, hef⟩
      have hn : needsModelConfigOf model r = true :=
        List.any_eq_true.mpr ⟨f, List.mem_filter.mpr ⟨hf, by rw [hnav]; rfl⟩, hef⟩
      have hne : model.fields.isEmpty = false := by
        cases hm : model.fields
        · rw [hm] at hf
          cases hf
        · rfl
      unfold hasConfigBlock generateModelContentLines
      have hblock : cfgMarkerV2 ∈ configBlockLines config (needsModelConfigOf model r) ∨
          cfgMarkerV1 ∈ configBlockLines config (needsModelConfigOf model r) := by
        rw [hn]
        unfold configBlockLines
        by_cases hv : config.pydanticV2 = true
        · left
          rw [if_pos (by rw [hv]; rfl)]
          exact List.mem_cons_of_mem _ (List.mem_cons_self _ _)
        · right
          have hv' : config.pydanticV2 = false := Bool.eq_false_iff.mpr hv
          rw [if_neg (by rw [hv']; simp), if_pos (by rw [hv']; rfl)]
          exact List.mem_cons_of_mem _ (List.mem_cons_self _ _)
      have hbody : ∀ M : String, M ∈ configBlockLines config (needsModelConfigOf model r) →
          M ∈ (generate (importsOf model config mc r) ++ [""] ++
            ["class " ++ model.name ++ "(BaseModel):"] ++
            ["    \"\"\"" ++ model.name ++ " model.\"\"\""] ++
            (if model.fields.isEmpty then ["    pass"]
             else (model.fields.filter (fun f => !isNavField f)).map
                 (renderDataField (polyMapOf model) model config) ++
               (model.fields.filter (fun f => isNavField f)).filterMap
                 (renderNavField model) ++
               configBlockLines config (needsModelConfigOf model r))) := by
        intro M hM
        refine List.mem_append.mpr (Or.inr ?_)
        rw [if_neg (by rw [hne]; exact Bool.false_ne_true)]
        exact List.mem_append.mpr (Or.inr hM)
      rcases hblock with hb | hb
      · exact Or.inl (hbody _ hb)
      · exact Or.inr (hbody _ hb)
  · intro s config
    constructor
    · intro h
      by_cases hn : config.pydanticV2 = true ∧ structureNeedsConfig s = true
      · exact hn
      · exfalso
        rcases h with h | h
        · exact marker_not_mem_structure_lines (Or.inl rfl) hn h
        · exact marker_not_mem_structure_lines (Or.inr rfl) hn h
    · rintro ⟨hv, hneeds⟩
      unfold hasConfigBlock generateStructureContentLines
      left
      refine List.mem_append.mpr (Or.inr ?_)
      rw [if_pos (by rw [hv, hneeds]; rfl)]
      exact List.mem_cons_of_mem _ (List.mem_cons_self _ _)

/-- Claim C6, counterexample: a structure with an enum-valued field
(`Nationality` is a registered enum) compiled with Pydantic v2 disabled
emits no configuration block, contradicting the claimed equivalence. -/
theorem claim_c6_counterexample :
    isEnumField ⟨"Kind", FormatType.basic "Nationality"⟩ enumRegistry = true ∧
    enumStruct.fields = [⟨"Kind", FormatType.basic "Nationality"⟩] ∧
    cfgMarkerV2 ∉ generateStructureContentLines enumStruct { pydanticV2 := false } ∧
    cfgMarkerV1 ∉ generateStructureContentLines enumStruct { pydanticV2 := false } := by
  refine ⟨by decide, by decide, by decide, by decide⟩

/-! ## Claim C7 -/

/-- Claim C7: compilation output is NOT independent of map iteration order:
two registries with the same key/value set (one a permutation of the
other) produce different bytes for the model `M`, because
`resolvePolymorphicThrough` returns whichever owner of the polymorphic
relation `R` the registry iteration happens to visit first. -/
theorem claim_c7_code_bug :
    registryOrderAB.models.Perm registryOrderBA.models ∧
    generateModelContent (compileModel throughUserModel registryOrderAB) {} {}
        registryOrderAB ≠
      generateModelContent (compileModel throughUserModel registryOrderBA) {} {}
        registryOrderBA := by
  refine ⟨by decide, by decide⟩

end PydanticPlugin
